import Mathlib

/-!
# wsc: a nailed-up WebSocket client (src/main.cpp)

Shallow embedding of `src/main.cpp`.  Bytes are natural numbers (`0` is the C
string terminator, `47` is the slash, `10` the newline).  A buffer is a list of
bytes and a pointer into it is an index; an access outside the buffer has no
defined result (`none`).
-/

namespace Wsc

/-! ## C strings -/

/-- Bytes of the C string that starts at the head of `m`: everything before the
first zero byte.  There is no result when `m` holds no zero byte (the read runs
off the end of the known memory). -/
def cstrAt : List Nat → Option (List Nat)
  | [] => none
  | b :: bs => if b = 0 then some [] else (cstrAt bs).map (fun w => b :: w)

/-- C string read through a pointer `i` into the buffer `mem`. -/
def cstr (mem : List Nat) (i : Nat) : Option (List Nat) :=
  cstrAt (mem.drop i)

/-- Content of a C string argument: `strlen` and `strcpy` stop at the first zero
byte. -/
def c_str (s : List Nat) : List Nat :=
  s.takeWhile (fun b => b != 0)

/-! ## Path rewrite, main.cpp lines 84-90 -/

/-- Result of the path rewrite: the buffer afterwards, the number of iterations
the `while (p)` loop made, and the indices written, in order. -/
structure Rewrite where
  mem : List Nat
  iters : Nat
  writes : List Nat
deriving DecidableEq, Repr

/-- Loop of line 87-89: `while (p) { std::swap(*path++, p); }`.  The local `p`
holds the byte still to be stored, `path` is the index the next store goes to.
The first argument bounds the number of iterations; `repairPath` passes
`mem.length + 1`, which the loop cannot use up because `path` grows by one per
iteration and an access at `mem.length` or beyond already stops it (see
`swapLoop_fuel`). -/
def swapLoop : Nat → List Nat → Nat → Nat → Nat → List Nat → Option (List Nat × Nat × Nat × List Nat)
  | 0, _, _, _, _, _ => none
  | fuel + 1, mem, path, p, iters, writes =>
    if p = 0 then some (mem, path, iters, writes)
    else
      match mem[path]? with
      | none => none
      | some x => swapLoop fuel (mem.set path p) (path + 1) x (iters + 1) (writes ++ [path])

/-- Lines 84-90 of `connect_client`:
`char p = *path; *path++ = '/'; while (p) { std::swap(*path++, p); } *path = 0;`
on the buffer `mem` with `path` the index `i.path` points to. -/
def repairPath (mem : List Nat) (path : Nat) : Option Rewrite :=
  match mem[path]? with
  | none => none
  | some p =>
    match swapLoop (mem.length + 1) (mem.set path 47) (path + 1) p 0 [path] with
    | none => none
    | some (mem2, last, iters, writes) =>
      if last < mem2.length then
        some { mem := mem2.set last 0, iters := iters, writes := writes ++ [last] }
      else none

/-! ## The transport library as seen from main.cpp

libwebsockets is an outside collaborator: none of its code is in the
repository.  Every library call made by main.cpp is a field of `Lib`, and the
program is embedded over an arbitrary `Lib`. -/

/-- Retry and idle policy record, `lws_retry_bo_t`, with the fields main.cpp
lines 31-40 set. -/
structure lws_retry_bo_t where
  retry_ms_table : List Nat
  retry_ms_table_count : Nat
  conceal_count : Nat
  secs_since_valid_ping : Nat
  secs_since_valid_hangup : Nat
  jitter_percent : Nat
deriving DecidableEq, Repr

/-- Line 29: `backoff_ms[] = { 1000, 2000, 3000, 4000, 5000 }`. -/
def backoff_ms : List Nat := [1000, 2000, 3000, 4000, 5000]

/-- Lines 31-40; `LWS_ARRAY_SIZE(backoff_ms)` is the number of table entries. -/
def retryConfig : lws_retry_bo_t :=
  { retry_ms_table := backoff_ms
    retry_ms_table_count := backoff_ms.length
    conceal_count := backoff_ms.length
    secs_since_valid_ping := 400
    secs_since_valid_hangup := 400
    jitter_percent := 0 }

/-- Callback reasons that main.cpp tells apart (lines 115, 120, 124); the
established notification and every other reason take the `default` branch. -/
inductive lws_callback_reasons where
  | LWS_CALLBACK_CLIENT_CONNECTION_ERROR
  | LWS_CALLBACK_CLIENT_ESTABLISHED
  | LWS_CALLBACK_CLIENT_RECEIVE
  | LWS_CALLBACK_CLIENT_CLOSED
  | other (code : Nat)
deriving DecidableEq, Repr

/-- Arguments of the protocol callback, line 113.  `inp` is the memory readable
through the pointer `in` (`none` for a null pointer); the payload of a received
message is its first `len` bytes. -/
structure CbArgs where
  wsi : Nat
  reason : lws_callback_reasons
  user : Nat
  inp : Option (List Nat)
  len : Nat
deriving DecidableEq, Repr

/-- Payload of a received message: the first `len` bytes at `in`. -/
def payload (a : CbArgs) : List Nat :=
  (a.inp.getD []).take a.len

/-- Connection flags of line 95. -/
inductive LCCSCF where
  | USE_SSL
  | PRIORITIZE_READS
deriving DecidableEq, Repr

/-- Fields of `lws_client_connect_info` that lines 79-98 fill in; the strings
are what the library reads through the pointers when it is called (`none` when
the pointer does not lead to a terminated string). -/
structure lws_client_connect_info where
  context : Bool
  address : Option (List Nat)
  port : Int
  path : Option (List Nat)
  host : Option (List Nat)
  origin : Option (List Nat)
  ssl_connection : List LCCSCF
  protocol : Option String
  local_protocol_name : String
  retry_and_idle_policy : lws_retry_bo_t
deriving DecidableEq, Repr

/-- Outcome of `lws_parse_uri(url, &prot, &i.address, &i.port, &i.path)`: the
return value, the string as the parser leaves it (it works in place on the
bytes before the terminator) and the three results kept by the caller, the
pointers as indices into the buffer. -/
structure ParseResult where
  ret : Int
  buf : List Nat
  address : Nat
  port : Int
  path : Nat
deriving DecidableEq, Repr

/-- Outcome of a retry scheduler call: the return value (nonzero when the
connection attempts are exhausted), and the timer slot and attempt counter as
the call leaves them (both are passed by pointer). -/
structure SchedResult where
  ret : Int
  sul : Option Nat
  ctry : Nat
deriving DecidableEq, Repr

/-- Library calls made by main.cpp.  `lws_parse_uri` receives the bytes of the
string `url` and returns them as it leaves them; the terminator written by
`strcpy` and the spare byte behind it stay as they are.  The library runs the
callbacks of the program from `lws_service` only (see `Dispatch`).
`lws_client_connect_via_info` also gets the number of earlier calls, and
`uninit`, the content of fresh memory, the number of earlier allocations, so
that their answers may differ from one attempt to the next. -/
structure Lib where
  lws_parse_uri : List Nat → ParseResult
  lws_client_connect_via_info : lws_client_connect_info → Nat → Bool
  lws_retry_sul_schedule : lws_retry_bo_t → Option Nat → Nat → SchedResult
  lws_retry_sul_schedule_retry_wsi : Nat → Option Nat → Nat → SchedResult
  lws_callback_http_dummy : CbArgs → Int
  lws_create_context : Bool
  uninit : Nat → Nat

/-! ## Program state (main.cpp lines 19-23) and the two output streams -/

/-- Lines written with `lwsl_err`.  For a connection error the logger is handed
the pointer `in`; what it prints from there is not followed further. -/
inductive LogLine where
  | cannot_parse_uri
  | connection_error (reason : Option (List Nat))
  | closed
  | attempts_exhausted (func : String)
  | usage
  | init_failed
deriving DecidableEq, Repr

/-- One call of a retry scheduler, as made by the program: the timer slot and
the counter handed over, the value returned and the timer slot as the call
left it. -/
structure SchedCall where
  via_wsi : Bool
  sul : Option Nat
  ctry : Nat
  ret : Int
  armed : Option Nat
deriving DecidableEq, Repr

/-- Globals of lines 19-23 together with what the program has emitted so far.
`sul` is the timer slot: `some d` when a call of `connect_client` is pending
with delay `d` microseconds.  `interrupted` is the `int` flag, which is only
ever assigned 1 and only tested for being nonzero.  `connects`, `sched_calls`
and `allocs` record the calls made to the library and to `new`. -/
structure State where
  argUrl : List Nat
  sul : Option Nat
  retryCount : Nat
  lwsContext : Bool
  interrupted : Bool
  out : List Nat
  err : List LogLine
  connects : List lws_client_connect_info
  sched_calls : List SchedCall
  allocs : Nat
deriving DecidableEq, Repr

/-- Zero-initialised globals at program start. -/
def State.init : State :=
  { argUrl := [], sul := none, retryCount := 0, lwsContext := false,
    interrupted := false, out := [], err := [], connects := [],
    sched_calls := [], allocs := 0 }

/-- How a piece of the program ends: it returns `v`, it calls `exit(code)`, or
it has no defined behaviour. -/
inductive Res (α : Type) where
  | ok (v : α) (s : State)
  | exit (code : Int) (s : State)
  | undefined
deriving DecidableEq, Repr

/-- Store what a retry scheduler call wrote through `&sul` and `&retryCount`
(a `uint16_t`), record the call, and run lines 107-108 or 147-148 when it
returned nonzero. -/
def after_schedule (func : String) (via_wsi : Bool) (s : State) (q : SchedResult) : State :=
  let s1 : State :=
    { s with sul := q.sul, retryCount := q.ctry % 65536,
             sched_calls := s.sched_calls ++
               [{ via_wsi := via_wsi, sul := s.sul, ctry := s.retryCount, ret := q.ret,
                  armed := q.sul }] }
  if q.ret ≠ 0 then
    { s1 with err := s1.err ++ [LogLine.attempts_exhausted func], interrupted := true }
  else s1

/-- Lines 92-98: the connect request, with the strings read from the buffer
`mem` as the path rewrite left it. -/
def connect_info (s : State) (r : ParseResult) (mem : List Nat) : lws_client_connect_info :=
  { context := s.lwsContext
    address := cstr mem r.address
    port := r.port
    path := cstr mem r.path
    host := cstr mem r.address
    origin := cstr mem r.address
    ssl_connection := [LCCSCF.USE_SSL, LCCSCF.PRIORITIZE_READS]
    protocol := none
    local_protocol_name := "lws-minimal-client"
    retry_and_idle_policy := retryConfig }

/-- Result of line 79 in state `s`. -/
def parsed (lib : Lib) (s : State) : ParseResult :=
  lib.lws_parse_uri (c_str s.argUrl)

/-- Buffer `url` after line 79: the parsed string, the terminator written by
`strcpy` on line 76 and the spare byte allocated on line 75. -/
def url_buf (lib : Lib) (s : State) : List Nat :=
  (parsed lib s).buf ++ [0, lib.uninit s.allocs]

/-- Lines 70-111. -/
def connect_client (lib : Lib) (s : State) : Res Unit :=
  -- 75-76: url = new char[strlen(argUrl) + 2]; strcpy(url, argUrl)
  let s1 : State := { s with allocs := s.allocs + 1 }
  -- 79-82
  if (parsed lib s).ret ≠ 0 then
    Res.exit 1 { s1 with err := s1.err ++ [LogLine.cannot_parse_uri] }
  else
    -- 84-90
    match repairPath (url_buf lib s) (parsed lib s).path with
    | none => Res.undefined
    | some rw =>
      -- 92-98
      let i := connect_info s1 (parsed lib s) rw.mem
      let s2 : State := { s1 with connects := s1.connects ++ [i] }
      -- 100-110
      if lib.lws_client_connect_via_info i s1.connects.length then
        Res.ok () s2
      else
        Res.ok () (after_schedule "connect_client" false s2
          (lib.lws_retry_sul_schedule retryConfig s2.sul s2.retryCount))

/-- Line 121, `puts(in)`: the C string at `in` followed by a newline. -/
def puts (inp : Option (List Nat)) : Option (List Nat) :=
  match inp with
  | none => none
  | some m => (cstrAt m).map (fun w => w ++ [10])

/-- Label `do_retry`, lines 135-151. -/
def do_retry (lib : Lib) (s : State) (wsi : Nat) : Res Int :=
  Res.ok 0 (after_schedule "callback_minimal" true s
    (lib.lws_retry_sul_schedule_retry_wsi wsi s.sul s.retryCount))

/-- Lines 113-152. -/
def callback_minimal (lib : Lib) (s : State) (a : CbArgs) : Res Int :=
  match a.reason with
  | lws_callback_reasons.LWS_CALLBACK_CLIENT_CONNECTION_ERROR =>
    do_retry lib { s with err := s.err ++ [LogLine.connection_error a.inp] } a.wsi
  | lws_callback_reasons.LWS_CALLBACK_CLIENT_RECEIVE =>
    match puts a.inp with
    | none => Res.undefined
    | some line => Res.ok (lib.lws_callback_http_dummy a) { s with out := s.out ++ line }
  | lws_callback_reasons.LWS_CALLBACK_CLIENT_CLOSED =>
    do_retry lib { s with err := s.err ++ [LogLine.closed] } a.wsi
  | _ => Res.ok (lib.lws_callback_http_dummy a) s

/-- Lines 159-161. -/
def sigint_handler (s : State) : State :=
  { s with interrupted := true }

/-! ## The service loop (main.cpp lines 163-200)

What one call of `lws_service` does to the program is to run some of its
callbacks: the pending timer callback, the protocol callback, and, at any
moment, the signal handler.  Which ones, and the value returned, is decided
outside the program and given as a `Tick`. -/

/-- One thing that happens during a call of `lws_service`. -/
inductive Dispatch where
  | timer
  | callback (a : CbArgs)
  | sigint
deriving DecidableEq, Repr

/-- One call of `lws_service`: what it dispatches, in order, and what it
returns. -/
structure Tick where
  events : List Dispatch
  ret : Int
deriving DecidableEq, Repr

/-- Run one dispatched item.  A timer expiry runs `connect_client` when the slot
is armed, and empties the slot first. -/
def dispatch (lib : Lib) (s : State) : Dispatch → Res Unit
  | Dispatch.timer =>
    match s.sul with
    | none => Res.ok () s
    | some _ => connect_client lib { s with sul := none }
  | Dispatch.callback a =>
    match callback_minimal lib s a with
    | Res.ok _ s1 => Res.ok () s1
    | Res.exit c s1 => Res.exit c s1
    | Res.undefined => Res.undefined
  | Dispatch.sigint => Res.ok () (sigint_handler s)

/-- Body of one `lws_service` call: the dispatched items in order, stopping at
the first that does not return. -/
def lws_service (lib : Lib) : List Dispatch → State → Res Unit
  | [], s => Res.ok () s
  | d :: ds, s =>
    match dispatch lib s d with
    | Res.ok _ s1 => lws_service lib ds s1
    | Res.exit c s1 => Res.exit c s1
    | Res.undefined => Res.undefined

/-- How the process ends: with an exit status, without defined behaviour, or
not within the ticks given (the loop is still running). -/
inductive Proc where
  | exited (code : Int) (s : State)
  | undefined
  | running (s : State)
deriving DecidableEq, Repr

/-- Exit status of a finished process. -/
def Proc.code : Proc → Option Int
  | Proc.exited c _ => some c
  | _ => none

/-- Lines 193-199: `while (n >= 0 && !interrupted) n = lws_service(...)`, then
`lws_context_destroy` and `return 0`. -/
def serviceLoop (lib : Lib) : List Tick → Int → State → Proc
  | ticks, n, s =>
    if n ≥ 0 ∧ s.interrupted = false then
      match ticks with
      | [] => Proc.running s
      | t :: ts =>
        match lws_service lib t.events s with
        | Res.ok _ s1 => serviceLoop lib ts t.ret s1
        | Res.exit c s1 => Proc.exited c s1
        | Res.undefined => Proc.undefined
    else Proc.exited 0 { s with lwsContext := false }

/-- Program state when the loop of line 193 is entered: `argUrl` set on line
169, the context created on line 184 and the first attempt scheduled on line
191, 1 microsecond ahead. -/
def startState (argv : List (List Nat)) (early_sigint : Bool) : State :=
  { (if early_sigint then sigint_handler { State.init with argUrl := argv.getD 1 [] }
     else { State.init with argUrl := argv.getD 1 [] })
    with lwsContext := true, sul := some 1 }

/-- Lines 163-200.  `argv` holds `argc` strings; `early_sigint` tells whether
the signal arrives between line 174 and the first test of the loop. -/
def main (lib : Lib) (argv : List (List Nat)) (early_sigint : Bool) (ticks : List Tick) : Proc :=
  if argv.length ≠ 2 then
    Proc.exited 1 { State.init with err := [LogLine.usage] }
  else
    let s0 : State := { State.init with argUrl := argv.getD 1 [] }
    let s1 : State := if early_sigint then sigint_handler s0 else s0
    if lib.lws_create_context = false then
      Proc.exited 1 { s1 with err := s1.err ++ [LogLine.init_failed] }
    else
      -- 184, 191: the first attempt is scheduled 1 microsecond ahead
      let s2 : State := { s1 with lwsContext := true, sul := some 1 }
      serviceLoop lib ticks 0 s2

/-! ## The library contracts the spec describes

The retry policy and the URI parser live in libwebsockets.  The definitions
of this section follow the words of the spec (sections 3 and 4.1 to 4.3). -/

/-- Modelled from the spec: the delay computation of the retry scheduler is
libwebsockets code, absent from src/.  Section 4.2: `nextDelay` indexes the
delay table by `min(attemptCount, len-1)` and perturbs the entry by at most
`jitterPercent` percent of it, in either direction; `rnd` is the random draw,
and a `jitterPercent` of 0 leaves the entry as it is.  Milliseconds. -/
def nextDelay (bo : lws_retry_bo_t) (k : Nat) (rnd : Int) : Nat :=
  let base := bo.retry_ms_table.getD (min k (bo.retry_ms_table_count - 1)) 0
  let span : Int := ((base * bo.jitter_percent / 100 : Nat) : Int)
  ((base : Int) + max (-span) (min rnd span)).toNat

/-- Modelled from the spec: the give-up rule of the retry scheduler is
libwebsockets code, absent from src/.  Section 4.2 and section 8: true once the
attempt count exceeds `concealCount`, unless `concealCount >= len(table)`, in
which case the policy never gives up.  `len(table)` is the field
`retry_ms_table_count`. -/
def shouldGiveUp (bo : lws_retry_bo_t) (k : Nat) : Bool :=
  if bo.conceal_count ≥ bo.retry_ms_table_count then false
  else decide (k > bo.conceal_count)

/-- Modelled from the spec: `lws_retry_sul_schedule` and
`lws_retry_sul_schedule_retry_wsi` are libwebsockets code, absent from src/.
Section 4.3, `armRetry`: the policy is consulted with the current attempt
count; when `shouldGiveUp` is true the call reports exhaustion (nonzero) and
changes nothing, otherwise it computes the delay, arms the one-shot timer with
it and increments the attempt count.  The count is a `uint16` (section 3), and
section 4.2 has the never-give-up mode reuse the last delay forever, so the
count stays at 65535 once there.  The timer slot is in microseconds. -/
def armRetry (rnd : Int) (bo : lws_retry_bo_t) (sul : Option Nat) (ctry : Nat) : SchedResult :=
  if shouldGiveUp bo ctry then { ret := 1, sul := sul, ctry := ctry }
  else
    { ret := 0, sul := some (nextDelay bo ctry rnd * 1000),
      ctry := if ctry < 65535 then ctry + 1 else ctry }

/-- Bytes of an ASCII string. -/
def bytes (s : String) : List Nat :=
  s.toList.map Char.toNat

/-- Modelled from the spec: first step of the URI parser of section 4.1 (library
code, absent from src/), the split at the first `://` into the scheme before it
and what follows it. -/
def splitScheme : List Nat → Option (List Nat × List Nat)
  | [] => none
  | b :: bs =>
    if b = 0 then none
    else if b = 58 ∧ bs.take 2 = [47, 47] then some ([], bs.drop 2)
    else (splitScheme bs).map (fun r => (b :: r.1, r.2))

/-- Modelled from the spec: port number of section 4.1, the decimal value of
the leading digits (library code, absent from src/). -/
def atoi (ds : List Nat) : Nat :=
  (ds.takeWhile (fun d => decide (48 ≤ d ∧ d ≤ 57))).foldl (fun a d => a * 10 + (d - 48)) 0

/-- Modelled from the spec: default port per scheme of section 4.1 (library
code, absent from src/). -/
def defaultPort (scheme : List Nat) : Int :=
  if scheme = bytes "ws" ∨ scheme = bytes "http" then 80
  else if scheme = bytes "wss" ∨ scheme = bytes "https" then 443
  else 0

/-- Modelled from the spec: `lws_parse_uri` is libwebsockets code, absent from
src/.  Section 4.1: the input has the form `scheme://host[:port]/path` and is
split into scheme, host, optional port (default per scheme) and path; the parse
fails when scheme or host cannot be determined.  The split is made in place, as
the signature used on line 79 requires: the separator after each part is
overwritten by a terminator and the parts are pointers into the buffer, so the
path begins after the slash that ends the host or the port (section 8:
`ws://host/stream` has the endpoint path `/stream` once the slash is put back),
and is the empty string at the end of the buffer when there is no such slash. -/
def parse_uri (url : List Nat) : ParseResult :=
  match splitScheme url with
  | none => { ret := 1, buf := url, address := 0, port := 0, path := 0 }
  | some (scheme, rest) =>
    let inHost := fun (b : Nat) => decide (b ≠ 0 ∧ b ≠ 58 ∧ b ≠ 47)
    let host := rest.takeWhile inHost
    if scheme = [] ∨ host = [] then
      { ret := 1, buf := url, address := 0, port := 0, path := 0 }
    else
      let a := scheme.length + 3
      let h := a + host.length
      let head := scheme ++ [0, 47, 47] ++ host
      match rest.dropWhile inHost with
      | 47 :: tl =>
        { ret := 0, buf := head ++ 0 :: tl, address := a, port := defaultPort scheme, path := h + 1 }
      | 58 :: tl =>
        let inPort := fun (b : Nat) => decide (b ≠ 0 ∧ b ≠ 47)
        let digits := tl.takeWhile inPort
        match tl.dropWhile inPort with
        | 47 :: tl2 =>
          { ret := 0, buf := head ++ 0 :: digits ++ 0 :: tl2, address := a,
            port := atoi digits, path := h + 1 + digits.length + 1 }
        | tl2 =>
          { ret := 0, buf := head ++ 0 :: digits ++ tl2, address := a,
            port := atoi digits, path := h + 1 + digits.length }
      | tl =>
        { ret := 0, buf := head ++ tl, address := a, port := defaultPort scheme, path := h }

/-- Modelled from the spec: the library with the contracts above (libwebsockets
is absent from src/).  Every connection this program makes
carries `retryConfig` (line 98), so the scheduler reached through a connection
uses that policy.  `rnd` is the jitter draw at a given attempt count,
`connect_ok` tells which calls of the connect primitive start an attempt and
`junk` is the content of fresh memory. -/
def specLib (rnd : Nat → Int) (connect_ok : Nat → Bool) (junk : Nat → Nat) : Lib :=
  { lws_parse_uri := parse_uri
    lws_client_connect_via_info := fun _ k => connect_ok k
    lws_retry_sul_schedule := fun bo sul c => armRetry (rnd c) bo sul c
    lws_retry_sul_schedule_retry_wsi := fun _ sul c => armRetry (rnd c) retryConfig sul c
    lws_callback_http_dummy := fun _ => 0
    lws_create_context := true
    uninit := junk }

/-! ## Concrete inputs -/

/-- The library of this section with no jitter draw, a connect primitive that
always starts an attempt and fresh memory filled with the byte 99. -/
def sampleLib : Lib :=
  specLib (fun _ => 0) (fun _ => true) (fun _ => 99)

/-- The same library with a connect primitive that never starts an attempt. -/
def sampleLibNoConnect : Lib :=
  specLib (fun _ => 0) (fun _ => false) (fun _ => 99)

/-- A received message: `m` is the memory at `in`, `len` the payload length. -/
def sampleReceive (m : List Nat) (len : Nat) : CbArgs :=
  { wsi := 1, reason := lws_callback_reasons.LWS_CALLBACK_CLIENT_RECEIVE, user := 0,
    inp := some m, len := len }

/-- A callback without data for the reason `r`. -/
def sampleEvent (r : lws_callback_reasons) : CbArgs :=
  { wsi := 1, reason := r, user := 0, inp := none, len := 0 }

/-- One call of `lws_service` that dispatches `ds` and returns 0. -/
def tick (ds : List Dispatch) : Tick :=
  { events := ds, ret := 0 }

/-- Command line `wsc ws://host/stream`. -/
def sampleArgv : List (List Nat) :=
  [bytes "wsc", bytes "ws://host/stream"]

/-- One failed attempt: the timer expires and `connect_client` starts an
attempt, then the transport reports a connection error. -/
def failedAttempt : List Tick :=
  [tick [Dispatch.timer],
   tick [Dispatch.callback (sampleEvent lws_callback_reasons.LWS_CALLBACK_CLIENT_CONNECTION_ERROR)]]

/-- A run of `k` failed attempts in a row. -/
def failures (k : Nat) : List Tick :=
  (List.replicate k failedAttempt).flatten

/-- Delay, in microseconds, of the retry armed after `j` earlier failures under
`retryConfig`: the table entry `min(j, 4)`. -/
def retryDelay (j : Nat) : Nat :=
  backoff_ms.getD (min j 4) 0 * 1000

/-- Record of the retry scheduler call made for the failure number `j + 1`
when it was concealed: the timer slot was empty (the timer had fired), the
counter was `j` (65535 at most), and the call armed the slot with
`retryDelay j`. -/
def concealedCall (j : Nat) : SchedCall :=
  { via_wsi := true, sul := none, ctry := min j 65535, ret := 0, armed := some (retryDelay j) }

/-- The program is waiting for its next attempt after `k` failures of
`ws://host/stream`, all of them concealed. -/
def retrying (k : Nat) (s : State) : Prop :=
  s.argUrl = bytes "ws://host/stream" ∧ s.retryCount = min k 65535 ∧ s.interrupted = false ∧
  s.sul = some (if k = 0 then 1 else retryDelay (k - 1)) ∧
  s.sched_calls = (List.range k).map concealedCall

/-- Program state right after start-up with the URL `ws://host/stream`. -/
def sampleState : State :=
  { State.init with argUrl := bytes "ws://host/stream", lwsContext := true }

/-- A transport whose retry scheduler reports exhaustion on every call, the
return value that lines 106 and 146 test for; otherwise as `sampleLib`. -/
def givingUpLib : Lib :=
  { sampleLib with
    lws_retry_sul_schedule := fun _ sul c => { ret := 1, sul := sul, ctry := c }
    lws_retry_sul_schedule_retry_wsi := fun _ sul c => { ret := 1, sul := sul, ctry := c } }

/-! ## Theorems -/

theorem cstrAt_append (w tl : List Nat) (hw : ∀ b ∈ w, b ≠ 0) :
    cstrAt (w ++ 0 :: tl) = some w := by
  induction w with
  | nil => simp [cstrAt]
  | cons c w ih =>
    have hc : c ≠ 0 := hw c (by simp)
    have ih2 := ih (fun b hb => hw b (by simp [hb]))
    simp [cstrAt, hc, ih2]

theorem cstr_layout (pre w tl : List Nat) (hw : ∀ b ∈ w, b ≠ 0) :
    cstr (pre ++ w ++ 0 :: tl) pre.length = some w := by
  simp [cstr, cstrAt_append w tl hw]

theorem swapLoop_shift (w : List Nat) (hw : ∀ b ∈ w, b ≠ 0) :
    ∀ (p : Nat) (q pre tl : List Nat) (fuel iters : Nat) (writes : List Nat),
      p :: q = w ++ [0] → w.length < fuel →
      swapLoop fuel (pre ++ q ++ tl) pre.length p iters writes
        = some (pre ++ w ++ tl, pre.length + w.length, iters + w.length,
                writes ++ (List.range w.length).map (fun j => pre.length + j)) := by
  induction w with
  | nil =>
    intro p q pre tl fuel iters writes h hf
    simp at h
    obtain ⟨hp, hq⟩ := h
    subst hp; subst hq
    cases fuel with
    | zero => omega
    | succ f => simp [swapLoop]
  | cons c w ih =>
    intro p q pre tl fuel iters writes h hf
    simp at h
    obtain ⟨hp, hq⟩ := h
    subst hp
    have hc : p ≠ 0 := hw p (by simp)
    cases fuel with
    | zero => simp at hf
    | succ f =>
      obtain ⟨x, q2, hx⟩ : ∃ x q2, x :: q2 = w ++ [0] := by
        cases w with
        | nil => exact ⟨0, [], rfl⟩
        | cons d w2 => exact ⟨d, w2 ++ [0], by simp⟩
      have hq2 : q = x :: q2 := by rw [hq, hx]
      subst hq2
      have hget : (pre ++ x :: q2 ++ tl)[pre.length]? = some x := by
        rw [List.append_assoc, List.getElem?_append_right (Nat.le_refl _)]
        simp
      have hset : (pre ++ x :: q2 ++ tl).set pre.length p = (pre ++ [p]) ++ q2 ++ tl := by
        simp
      have ih2 := ih (fun b hb => hw b (by simp [hb])) x q2 (pre ++ [p]) tl f (iters + 1)
        (writes ++ [pre.length]) hx (by simp at hf; omega)
      simp only [swapLoop, hc, if_false, hget, hset]
      have hlen : (pre ++ [p]).length = pre.length + 1 := by simp
      rw [hlen] at ih2
      rw [ih2]
      simp [List.range_succ_eq_map, Nat.add_assoc, Nat.add_comm 1]


/-- The iteration bound passed by `repairPath` is never what stops the loop: from
that bound on, a larger one gives the same result. -/
theorem swapLoop_fuel (fuel : Nat) :
    ∀ (mem : List Nat) (path p iters : Nat) (writes : List Nat),
      1 ≤ fuel → mem.length < path + fuel →
      swapLoop (fuel + 1) mem path p iters writes = swapLoop fuel mem path p iters writes := by
  induction fuel with
  | zero => intro _ _ _ _ _ h; omega
  | succ f ih =>
    intro mem path p iters writes _ hlen
    by_cases hp : p = 0
    · simp [swapLoop, hp]
    · cases hx : mem[path]? with
      | none => simp [swapLoop, hp, hx]
      | some x =>
        have hlt : path < mem.length := by
          by_contra hge
          rw [List.getElem?_eq_none (by omega)] at hx
          exact absurd hx (by simp)
        have hf : 1 ≤ f := by omega
        have := ih (mem.set path p) (path + 1) x (iters + 1) (writes ++ [path]) hf
          (by simp; omega)
        rw [swapLoop]
        simp only [hp, if_false, hx]
        rw [this]
        conv => rhs; rw [swapLoop]
        simp only [hp, if_false, hx]

theorem cstrAt_some (m w : List Nat) (h : cstrAt m = some w) :
    (∀ b ∈ w, b ≠ 0) ∧ ∃ tl, m = w ++ 0 :: tl := by
  induction m generalizing w with
  | nil => simp [cstrAt] at h
  | cons b bs ih =>
    by_cases hb : b = 0
    · simp [cstrAt, hb] at h
      subst h
      exact ⟨by simp, bs, by simp [hb]⟩
    · simp only [cstrAt, hb, if_false, Option.map_eq_some'] at h
      obtain ⟨w2, hw2, rfl⟩ := h
      obtain ⟨hz, tl, htl⟩ := ih w2 hw2
      refine ⟨?_, tl, by simp [htl]⟩
      intro c hc
      simp at hc
      rcases hc with rfl | hc
      · exact hb
      · exact hz c hc

theorem cstr_some (mem w : List Nat) (path : Nat) (h : cstr mem path = some w) :
    (∀ b ∈ w, b ≠ 0) ∧ path + w.length < mem.length ∧
      ∃ tl, mem = mem.take path ++ w ++ 0 :: tl := by
  obtain ⟨hz, tl, htl⟩ := cstrAt_some _ _ h
  have hlen : (mem.drop path).length = w.length + 1 + tl.length := by
    rw [htl]; simp; omega
  have hmem : mem = mem.take path ++ mem.drop path := (List.take_append_drop path mem).symm
  simp at hlen
  refine ⟨hz, by omega, tl, ?_⟩
  rw [List.append_assoc, ← htl, List.take_append_drop]

theorem repairPath_layout (pre w tl : List Nat) (g : Nat) (hw : ∀ b ∈ w, b ≠ 0) :
    repairPath (pre ++ w ++ 0 :: g :: tl) pre.length
      = some { mem := pre ++ 47 :: w ++ 0 :: tl, iters := w.length,
               writes := (List.range (w.length + 2)).map (fun j => pre.length + j) } := by
  obtain ⟨p, q, hpq⟩ : ∃ p q, p :: q = w ++ [0] := by
    cases w with
    | nil => exact ⟨0, [], rfl⟩
    | cons d w2 => exact ⟨d, w2 ++ [0], by simp⟩
  have hmem : pre ++ w ++ 0 :: g :: tl = pre ++ p :: q ++ g :: tl := by
    rw [hpq]; simp
  have hget : (pre ++ p :: q ++ g :: tl)[pre.length]? = some p := by
    rw [List.append_assoc, List.getElem?_append_right (Nat.le_refl _)]
    simp
  have hset : (pre ++ p :: q ++ g :: tl).set pre.length 47 = (pre ++ [47]) ++ q ++ g :: tl := by
    simp
  have hfuel : w.length < (pre ++ p :: q ++ g :: tl).length + 1 := by
    have : (p :: q).length = w.length + 1 := by rw [hpq]; simp
    simp at this
    simp; omega
  have hsh := swapLoop_shift w hw p q (pre ++ [47]) (g :: tl)
    ((pre ++ p :: q ++ g :: tl).length + 1) 0 [pre.length] hpq hfuel
  have hlen : (pre ++ [47]).length = pre.length + 1 := by simp
  rw [hlen] at hsh
  rw [hmem]
  simp only [repairPath, hget, hset, hsh]
  have hlast : pre.length + 1 + w.length < (pre ++ [47] ++ w ++ g :: tl).length := by
    simp; omega
  rw [if_pos hlast]
  have hset2 : (pre ++ [47] ++ w ++ g :: tl).set (pre.length + 1 + w.length) 0
      = pre ++ 47 :: w ++ 0 :: tl := by
    have : pre.length + 1 + w.length = (pre ++ [47] ++ w).length := by simp; omega
    rw [this, List.set_append_right _ _ (Nat.le_refl _)]
    simp
  rw [hset2]
  congr 1
  rw [List.range_succ_eq_map, List.range_succ]
  simp [Function.comp_def, Nat.add_assoc, Nat.add_comm 1]

theorem cstrAt_total (x y : List Nat) :
    ∃ w, cstrAt (x ++ 0 :: y) = some w ∧ w.length ≤ x.length := by
  induction x with
  | nil => exact ⟨[], by simp [cstrAt], by simp⟩
  | cons b bs ih =>
    obtain ⟨w, hw, hl⟩ := ih
    by_cases hb : b = 0
    · exact ⟨[], by simp [cstrAt, hb], by simp⟩
    · exact ⟨b :: w, by simp [cstrAt, hb, hw], by simp; omega⟩

theorem cstr_in_url (b : List Nat) (g o : Nat) (ho : o ≤ b.length) :
    ∃ w, cstr (b ++ [0, g]) o = some w ∧ o + w.length ≤ b.length := by
  obtain ⟨w, hw, hl⟩ := cstrAt_total (b.drop o) [g]
  refine ⟨w, ?_, ?_⟩
  · simp only [cstr]
    rw [List.drop_append_of_le_length ho]
    exact hw
  · simp at hl
    omega

theorem cstr_split (mem w : List Nat) (path : Nat) (h : cstr mem path = some w)
    (hroom : path + w.length + 1 < mem.length) :
    ∃ pre g tl, mem = pre ++ w ++ 0 :: g :: tl ∧ pre.length = path ∧ (∀ b ∈ w, b ≠ 0) := by
  obtain ⟨hz, hlt, tl0, htl⟩ := cstr_some mem w path h
  have hlen : mem.length = path + w.length + 1 + tl0.length := by
    have := congrArg List.length htl
    simp at this
    rw [Nat.min_eq_left (by omega)] at this
    omega
  cases tl0 with
  | nil => simp at hlen; omega
  | cons g tl =>
    exact ⟨mem.take path, g, tl, htl, by simp; omega, hz⟩

theorem repairPath_of_cstr (mem w : List Nat) (path : Nat) (h : cstr mem path = some w)
    (hroom : path + w.length + 1 < mem.length) :
    ∃ rw, repairPath mem path = some rw ∧ cstr rw.mem path = some (47 :: w) ∧
      rw.iters = w.length ∧
      rw.writes = (List.range (w.length + 2)).map (fun j => path + j) ∧
      rw.mem.length = mem.length ∧ rw.mem.take path = mem.take path := by
  obtain ⟨pre, g, tl, hmem, hpre, hz⟩ := cstr_split mem w path h hroom
  subst hmem
  subst hpre
  refine ⟨_, repairPath_layout pre w tl g hz, ?_, rfl, rfl, ?_, ?_⟩
  · have h47 : ∀ b ∈ 47 :: w, b ≠ 0 := by
      intro b hb
      simp at hb
      rcases hb with rfl | hb
      · decide
      · exact hz b hb
    have := cstr_layout pre (47 :: w) tl h47
    simpa using this
  · simp
    omega
  · simp

theorem connect_client_of_repair (lib : Lib) (s : State) (rw : Rewrite)
    (hret : (parsed lib s).ret = 0)
    (hrw : repairPath (url_buf lib s) (parsed lib s).path = some rw) :
    connect_client lib s =
      if lib.lws_client_connect_via_info
          (connect_info { s with allocs := s.allocs + 1 } (parsed lib s) rw.mem) s.connects.length then
        Res.ok () { s with allocs := s.allocs + 1,
                           connects := s.connects ++
                             [connect_info { s with allocs := s.allocs + 1 } (parsed lib s) rw.mem] }
      else
        Res.ok () (after_schedule "connect_client" false
          { s with allocs := s.allocs + 1,
                   connects := s.connects ++
                     [connect_info { s with allocs := s.allocs + 1 } (parsed lib s) rw.mem] }
          (lib.lws_retry_sul_schedule retryConfig s.sul s.retryCount)) := by
  simp [connect_client, hret, hrw]

theorem after_schedule_connects (f : String) (v : Bool) (s : State) (q : SchedResult) :
    (after_schedule f v s q).connects = s.connects := by
  unfold after_schedule
  split <;> rfl

theorem after_schedule_argUrl (f : String) (v : Bool) (s : State) (q : SchedResult) :
    (after_schedule f v s q).argUrl = s.argUrl := by
  unfold after_schedule
  split <;> rfl

/-- C1: for every parsed path `p` without a zero byte (the empty one included),
lying in the buffer at the index `i.path` with its terminator and one more byte
behind it, lines 84-90 leave at `i.path` exactly the slash followed by the
bytes of `p` in their order.  The result is not empty, its first byte is the
slash and its length is `length p + 1`; it is the path `connect_client` hands
to the connect primitive. -/
theorem repair_prepends_slash (p pre tl : List Nat) (g : Nat) (hp : ∀ b ∈ p, b ≠ 0) :
    cstr (pre ++ p ++ 0 :: g :: tl) pre.length = some p ∧
    (∃ rw, repairPath (pre ++ p ++ 0 :: g :: tl) pre.length = some rw ∧
      rw.mem = pre ++ 47 :: p ++ 0 :: tl ∧
      cstr rw.mem pre.length = some (47 :: p)) ∧
    (47 :: p) ≠ [] ∧ (47 :: p).head? = some 47 ∧ (47 :: p).length = p.length + 1 ∧
    ∀ (lib : Lib) (s : State), (parsed lib s).ret = 0 →
      url_buf lib s = pre ++ p ++ 0 :: g :: tl → (parsed lib s).path = pre.length →
      ∃ s1 i, connect_client lib s = Res.ok () s1 ∧ s1.connects = s.connects ++ [i] ∧
        i.path = some (47 :: p) := by
  have h47 : ∀ b ∈ 47 :: p, b ≠ 0 := by
    intro b hb
    simp at hb
    rcases hb with rfl | hb
    · decide
    · exact hp b hb
  have hc : cstr (pre ++ 47 :: p ++ 0 :: tl) pre.length = some (47 :: p) := by
    simpa using cstr_layout pre (47 :: p) tl h47
  refine ⟨cstr_layout pre p (g :: tl) hp, ⟨_, repairPath_layout pre p tl g hp, rfl, hc⟩,
    by simp, by simp, by simp, ?_⟩
  intro lib s hret hbuf hpath
  have hrw := repairPath_layout pre p tl g hp
  rw [← hbuf, ← hpath] at hrw
  rw [connect_client_of_repair lib s _ hret hrw]
  split
  · exact ⟨_, _, rfl, rfl, by simpa [connect_info, hpath] using hc⟩
  · exact ⟨_, _, rfl, by rw [after_schedule_connects], by simpa [connect_info, hpath] using hc⟩

theorem repair_prepends_slash_witness :
    (∀ b ∈ bytes "stream", b ≠ 0) ∧
    ∃ rw, repairPath (bytes "ws" ++ 0 :: bytes "//host" ++ [0] ++ bytes "stream" ++ 0 :: 99 :: [])
        (bytes "ws" ++ 0 :: bytes "//host" ++ [0]).length = some rw ∧
      cstr rw.mem 10 = some (bytes "/stream") :=
  ⟨by decide,
   by
    obtain ⟨rw, h1, _, h3⟩ :=
      (repair_prepends_slash (bytes "stream") (bytes "ws" ++ 0 :: bytes "//host" ++ [0]) [] 99
        (by decide)).2.1
    exact ⟨rw, h1, h3⟩⟩

/-- C8, as stated, fails: the parsed path `/stream` begins with the slash, and
lines 84-90 turn it into `//stream`; applied to their own output `/stream`
(from the parsed path `stream`) they change it again. -/
theorem repair_doubles_leading_slash :
    cstr (bytes "ws" ++ 0 :: bytes "//host" ++ 0 :: bytes "/stream" ++ [0, 99]) 10
      = some (bytes "/stream") ∧
    (repairPath (bytes "ws" ++ 0 :: bytes "//host" ++ 0 :: bytes "/stream" ++ [0, 99]) 10).bind
      (fun rw => cstr rw.mem 10) = some (bytes "//stream") ∧
    bytes "//stream" ≠ bytes "/stream" ∧
    (repairPath (bytes "stream" ++ [0, 99, 99]) 0).bind (fun rw => cstr rw.mem 0)
      = some (bytes "/stream") ∧
    ((repairPath (bytes "stream" ++ [0, 99, 99]) 0).bind
      (fun rw => repairPath rw.mem 0)).bind (fun rw => cstr rw.mem 0) = some (bytes "//stream") := by
  decide

theorem nulfree_slash (p : List Nat) (hp : ∀ b ∈ p, b ≠ 0) : ∀ b ∈ 47 :: p, b ≠ 0 := by
  intro b hb
  simp at hb
  rcases hb with rfl | hb
  · decide
  · exact hp b hb

theorem parse_ws_host_stream :
    parse_uri (c_str (bytes "ws://host/stream"))
      = { ret := 0, buf := bytes "ws" ++ 0 :: bytes "//host" ++ 0 :: bytes "stream",
          address := 5, port := 80, path := 10 } := by
  decide

theorem ws_host_stream_repair (lib : Lib) (hp : lib.lws_parse_uri = parse_uri) (s : State)
    (hs : s.argUrl = bytes "ws://host/stream") :
    (parsed lib s).ret = 0 ∧
    cstr (url_buf lib s) (parsed lib s).path = some (bytes "stream") ∧
    ∃ rw, repairPath (url_buf lib s) (parsed lib s).path = some rw ∧
      cstr rw.mem (parsed lib s).path = some (bytes "/stream") := by
  have hparsed : parsed lib s
      = { ret := 0, buf := bytes "ws" ++ 0 :: bytes "//host" ++ 0 :: bytes "stream",
          address := 5, port := 80, path := 10 } := by
    simp only [parsed, hp, hs]
    exact parse_ws_host_stream
  have hz : ∀ b ∈ bytes "stream", b ≠ 0 := by decide
  have hbuf : url_buf lib s
      = (bytes "ws" ++ 0 :: bytes "//host" ++ [0]) ++ bytes "stream" ++ 0 :: lib.uninit s.allocs :: [] := by
    unfold url_buf
    rw [hparsed]
    simp
  have hpath : (parsed lib s).path = (bytes "ws" ++ 0 :: bytes "//host" ++ [0]).length := by
    rw [hparsed]; decide
  have hrw := repairPath_layout (bytes "ws" ++ 0 :: bytes "//host" ++ [0]) (bytes "stream") []
    (lib.uninit s.allocs) hz
  have hc := cstr_layout (bytes "ws" ++ 0 :: bytes "//host" ++ [0]) (bytes "stream")
    [lib.uninit s.allocs] hz
  have hc2 := cstr_layout (bytes "ws" ++ 0 :: bytes "//host" ++ [0]) (47 :: bytes "stream")
    [] (nulfree_slash _ hz)
  rw [← hbuf, ← hpath] at hrw hc
  rw [← hpath] at hc2
  have hslash : (47 :: bytes "stream") = bytes "/stream" := by decide
  refine ⟨by rw [hparsed], hc, _, hrw, ?_⟩
  rw [← hslash]
  simpa using hc2

/-- C8 amended: lines 84-90 run for every parsed path, whether or not it begins
with the slash.  The output is the slash followed by the parsed path, so it
differs from the parsed path, and running the lines on their own output puts a
second slash in front.  For `ws://host/stream` the parser of section 4.1 yields
the path `stream` and the connect primitive receives `/stream`. -/
theorem repair_is_unconditional (p pre tl : List Nat) (g h : Nat) (hp : ∀ b ∈ p, b ≠ 0) :
    (∃ rw, repairPath (pre ++ p ++ 0 :: g :: h :: tl) pre.length = some rw ∧
      cstr rw.mem pre.length = some (47 :: p) ∧ 47 :: p ≠ p ∧
      ∃ rw2, repairPath rw.mem pre.length = some rw2 ∧
        cstr rw2.mem pre.length = some (47 :: 47 :: p)) ∧
    ∀ (rnd : Nat → Int) (ok : Nat → Bool) (junk : Nat → Nat) (s : State),
      s.argUrl = bytes "ws://host/stream" →
      cstr (url_buf (specLib rnd ok junk) s) (parsed (specLib rnd ok junk) s).path
        = some (bytes "stream") ∧
      ∃ s1 i, connect_client (specLib rnd ok junk) s = Res.ok () s1 ∧
        s1.connects = s.connects ++ [i] ∧ i.path = some (bytes "/stream") := by
  constructor
  · have h1 := repairPath_layout pre p (h :: tl) g hp
    have h2 := repairPath_layout pre (47 :: p) tl h (nulfree_slash p hp)
    have c1 := cstr_layout pre (47 :: p) (h :: tl) (nulfree_slash p hp)
    have c2 := cstr_layout pre (47 :: 47 :: p) tl (nulfree_slash _ (nulfree_slash p hp))
    refine ⟨_, h1, by simpa using c1, ?_, _, by simpa using h2, by simpa using c2⟩
    intro hne
    have := congrArg List.length hne
    simp at this
  · intro rnd ok junk s hs
    obtain ⟨hret, hc, rw, hrw, hc2⟩ := ws_host_stream_repair (specLib rnd ok junk) rfl s hs
    refine ⟨hc, ?_⟩
    rw [connect_client_of_repair _ s _ hret hrw]
    split
    · exact ⟨_, _, rfl, rfl, by simpa [connect_info] using hc2⟩
    · exact ⟨_, _, rfl, by rw [after_schedule_connects], by simpa [connect_info] using hc2⟩

theorem repair_is_unconditional_witness :
    (∀ b ∈ bytes "/x", b ≠ 0) ∧
    ∃ rw, repairPath (bytes "/x" ++ [0, 99, 99]) 0 = some rw ∧
      cstr rw.mem 0 = some (bytes "//x") :=
  ⟨by decide,
   by
    obtain ⟨rw, h1, h2, _⟩ := (repair_is_unconditional (bytes "/x") [] [] 99 99 (by decide)).1
    exact ⟨rw, h1, h2⟩⟩

theorem cstrAt_indep (x y : List Nat) : cstrAt (x ++ 0 :: y) = cstrAt (x ++ [0]) := by
  induction x with
  | nil => simp [cstrAt]
  | cons b bs ih => simp [cstrAt, ih]

theorem cstr_url_indep (b : List Nat) (g1 g2 o : Nat) (ho : o ≤ b.length) :
    cstr (b ++ [0, g1]) o = cstr (b ++ [0, g2]) o := by
  simp only [cstr]
  rw [List.drop_append_of_le_length ho, List.drop_append_of_le_length ho,
    cstrAt_indep _ [g1], cstrAt_indep _ [g2]]

theorem connect_client_argUrl (lib : Lib) (s : State) :
    (∃ s1, connect_client lib s = Res.ok () s1 ∧ s1.argUrl = s.argUrl) ∨
    (∃ s1, connect_client lib s = Res.exit 1 s1 ∧ s1.argUrl = s.argUrl) ∨
    connect_client lib s = Res.undefined := by
  unfold connect_client
  simp only []
  split
  · exact Or.inr (Or.inl ⟨_, rfl, rfl⟩)
  · split
    · exact Or.inr (Or.inr rfl)
    · split
      · exact Or.inl ⟨_, rfl, rfl⟩
      · exact Or.inl ⟨_, rfl, by rw [after_schedule_argUrl]⟩

/-- C10: let `n` be the length of the URL string, copied into a buffer of
`n + 2` bytes and parsed in place, and let the parsed path start at an index
`o ≤ n` of that buffer.  Then the loop of lines 87-89 stops after
`length(path)` iterations (`n - o` of them when the path runs to the end of the
string), every index written by lines 84-90 is at most `n + 1`, and the call
is defined.  `connect_client` leaves `argUrl` as it was, and from any state
with the same `argUrl` it reads the same parsed path and hands the same
repaired path to the connect primitive. -/
theorem path_rewrite_stays_in_buffer (lib : Lib) (s : State)
    (hlen : (parsed lib s).buf.length = (c_str s.argUrl).length)
    (ho : (parsed lib s).path ≤ (c_str s.argUrl).length) :
    (url_buf lib s).length = (c_str s.argUrl).length + 2 ∧
    ∃ w rw, cstr (url_buf lib s) (parsed lib s).path = some w ∧
      repairPath (url_buf lib s) (parsed lib s).path = some rw ∧
      rw.iters = w.length ∧
      ((∀ i, (parsed lib s).path ≤ i → i < (c_str s.argUrl).length → (url_buf lib s)[i]? ≠ some 0) →
        rw.iters = (c_str s.argUrl).length - (parsed lib s).path) ∧
      rw.writes = (List.range (w.length + 2)).map (fun j => (parsed lib s).path + j) ∧
      (∀ i ∈ rw.writes, i ≤ (c_str s.argUrl).length + 1) ∧
      rw.mem.length = (c_str s.argUrl).length + 2 ∧
      ((parsed lib s).ret = 0 →
        ∃ s1 i, connect_client lib s = Res.ok () s1 ∧ s1.argUrl = s.argUrl ∧
          s1.connects = s.connects ++ [i] ∧ i.path = some (47 :: w)) ∧
      ((parsed lib s).ret ≠ 0 →
        ∃ s1, connect_client lib s = Res.exit 1 s1 ∧ s1.argUrl = s.argUrl) ∧
      (∀ (s0 s1 : State) (c : Int),
        connect_client lib s0 = Res.ok () s1 ∨ connect_client lib s0 = Res.exit c s1 →
        s1.argUrl = s0.argUrl) ∧
      ∀ s2 : State, s2.argUrl = s.argUrl →
        parsed lib s2 = parsed lib s ∧
        cstr (url_buf lib s2) (parsed lib s2).path = some w ∧
        ∃ rw2, repairPath (url_buf lib s2) (parsed lib s2).path = some rw2 ∧
          cstr rw2.mem (parsed lib s2).path = some (47 :: w) := by
  have hbl : (url_buf lib s).length = (c_str s.argUrl).length + 2 := by
    simp [url_buf, hlen]
  refine ⟨hbl, ?_⟩
  obtain ⟨w, hw0, hwl⟩ := cstr_in_url (parsed lib s).buf (lib.uninit s.allocs)
    (parsed lib s).path (by omega)
  have hw : cstr (url_buf lib s) (parsed lib s).path = some w := hw0
  have hroom : (parsed lib s).path + w.length + 1 < (url_buf lib s).length := by
    rw [hbl]; omega
  obtain ⟨rw, hrw, hc, hit, hwr, hml, _⟩ :=
    repairPath_of_cstr (url_buf lib s) w (parsed lib s).path hw hroom
  refine ⟨w, rw, hw, hrw, hit, ?_, hwr, ?_, by rw [hml, hbl], ?_, ?_, ?_, ?_⟩
  · intro hsuf
    rw [hit]
    by_contra hne
    have hlt : (parsed lib s).path + w.length < (c_str s.argUrl).length := by omega
    obtain ⟨_, _, tl, htl⟩ := cstr_some _ _ _ hw
    have hz : (url_buf lib s)[(parsed lib s).path + w.length]? = some 0 := by
      rw [htl]
      have hl : (List.take (parsed lib s).path (url_buf lib s) ++ w).length
          = (parsed lib s).path + w.length := by
        simp
        omega
      rw [← hl, List.getElem?_append_right (Nat.le_refl _)]
      simp
    exact hsuf _ (by omega) hlt hz
  · intro i hi
    rw [hwr] at hi
    simp at hi
    obtain ⟨j, hj, rfl⟩ := hi
    omega
  · intro hret
    rw [connect_client_of_repair lib s rw hret hrw]
    split
    · exact ⟨_, _, rfl, rfl, rfl, by simpa [connect_info] using hc⟩
    · exact ⟨_, _, rfl, by rw [after_schedule_argUrl], by rw [after_schedule_connects],
        by simpa [connect_info] using hc⟩
  · intro hret
    exact ⟨{ s with allocs := s.allocs + 1, err := s.err ++ [LogLine.cannot_parse_uri] },
      by simp [connect_client, hret], rfl⟩
  · intro s0 s1 c h
    rcases connect_client_argUrl lib s0 with ⟨t, ht, hu⟩ | ⟨t, ht, hu⟩ | ht
    · rcases h with h | h
      · rw [ht] at h
        cases h
        exact hu
      · rw [ht] at h
        cases h
    · rcases h with h | h
      · rw [ht] at h
        cases h
      · rw [ht] at h
        cases h
        exact hu
    · rcases h with h | h <;> rw [ht] at h <;> cases h
  · intro s2 h2
    have hp : parsed lib s2 = parsed lib s := by simp [parsed, h2]
    have hw2 : cstr (url_buf lib s2) (parsed lib s2).path = some w := by
      show cstr ((parsed lib s2).buf ++ [0, lib.uninit s2.allocs]) (parsed lib s2).path = some w
      rw [hp, ← hw0]
      exact cstr_url_indep (parsed lib s).buf (lib.uninit s2.allocs) (lib.uninit s.allocs)
        (parsed lib s).path (by omega)
    have hroom2 : (parsed lib s2).path + w.length + 1 < (url_buf lib s2).length := by
      rw [hp]
      simp [url_buf, hp, hlen]
      omega
    obtain ⟨rw2, hrw2, hc2, _⟩ :=
      repairPath_of_cstr (url_buf lib s2) w (parsed lib s2).path hw2 hroom2
    exact ⟨hp, hw2, rw2, hrw2, hc2⟩

theorem path_rewrite_stays_in_buffer_witness :
    (parsed sampleLib sampleState).buf.length = (c_str sampleState.argUrl).length ∧
    (parsed sampleLib sampleState).path ≤ (c_str sampleState.argUrl).length ∧
    ∃ w rw, cstr (url_buf sampleLib sampleState) (parsed sampleLib sampleState).path = some w ∧
      repairPath (url_buf sampleLib sampleState) (parsed sampleLib sampleState).path = some rw ∧
      rw.iters = w.length ∧ ∀ i ∈ rw.writes, i ≤ (c_str sampleState.argUrl).length + 1 := by
  refine ⟨by decide, by decide, ?_⟩
  obtain ⟨_, w, rw, h1, h2, h3, _, _, h5, _⟩ :=
    path_rewrite_stays_in_buffer sampleLib sampleState (by decide) (by decide)
  exact ⟨w, rw, h1, h2, h3, h5⟩

theorem callback_receive (lib : Lib) (s : State) (a : CbArgs) (m w : List Nat)
    (hr : a.reason = lws_callback_reasons.LWS_CALLBACK_CLIENT_RECEIVE)
    (hm : a.inp = some m) (hw : cstrAt m = some w) :
    callback_minimal lib s a
      = Res.ok (lib.lws_callback_http_dummy a) { s with out := s.out ++ (w ++ [10]) } := by
  simp [callback_minimal, hr, puts, hm, hw]

theorem callback_retry (lib : Lib) (s : State) (a : CbArgs)
    (hr : a.reason = lws_callback_reasons.LWS_CALLBACK_CLIENT_CONNECTION_ERROR ∨
          a.reason = lws_callback_reasons.LWS_CALLBACK_CLIENT_CLOSED) :
    ∃ l, callback_minimal lib s a
      = Res.ok 0 (after_schedule "callback_minimal" true { s with err := s.err ++ [l] }
          (lib.lws_retry_sul_schedule_retry_wsi a.wsi s.sul s.retryCount)) := by
  rcases hr with hr | hr
  · exact ⟨LogLine.connection_error a.inp, by simp [callback_minimal, hr, do_retry]⟩
  · exact ⟨LogLine.closed, by simp [callback_minimal, hr, do_retry]⟩

theorem callback_default (lib : Lib) (s : State) (a : CbArgs)
    (h1 : a.reason ≠ lws_callback_reasons.LWS_CALLBACK_CLIENT_CONNECTION_ERROR)
    (h2 : a.reason ≠ lws_callback_reasons.LWS_CALLBACK_CLIENT_CLOSED)
    (h3 : a.reason ≠ lws_callback_reasons.LWS_CALLBACK_CLIENT_RECEIVE) :
    callback_minimal lib s a = Res.ok (lib.lws_callback_http_dummy a) s := by
  unfold callback_minimal
  split <;> first | rfl | contradiction

/-- C2, as stated, fails: a payload of three bytes with a zero byte in the
middle comes out as its first byte and a newline; a payload without a zero byte
comes out with a newline added; and when the byte behind the payload is not
zero the output runs on past `len`. -/
theorem receive_output_differs_from_payload :
    callback_minimal sampleLib State.init (sampleReceive [104, 0, 105, 0] 3)
      = Res.ok 0 { State.init with out := [104, 10] } ∧
    callback_minimal sampleLib State.init (sampleReceive [104, 105, 0] 2)
      = Res.ok 0 { State.init with out := [104, 105, 10] } ∧
    callback_minimal sampleLib State.init (sampleReceive [104, 105, 33, 0] 2)
      = Res.ok 0 { State.init with out := [104, 105, 33, 10] } := by
  decide

/-- C2 amended: for a received message the handler writes the C string found at
`in`, that is the bytes before the first zero byte, followed by one newline;
`len` is not consulted.  When the payload holds no zero byte and a zero byte
follows it, the line is the payload and the newline, and a run of such events
produces one line per event, in arrival order, and changes nothing else. -/
theorem receive_prints_line (lib : Lib) (s : State) (evs : List CbArgs)
    (h : ∀ a ∈ evs, a.reason = lws_callback_reasons.LWS_CALLBACK_CLIENT_RECEIVE ∧
      (∀ b ∈ payload a, b ≠ 0) ∧ ∃ rest, a.inp = some (payload a ++ 0 :: rest)) :
    (∀ (a : CbArgs) (m w : List Nat),
      a.reason = lws_callback_reasons.LWS_CALLBACK_CLIENT_RECEIVE → a.inp = some m →
      cstrAt m = some w →
      callback_minimal lib s a
        = Res.ok (lib.lws_callback_http_dummy a) { s with out := s.out ++ (w ++ [10]) }) ∧
    lws_service lib (evs.map Dispatch.callback) s
      = Res.ok () { s with out := s.out ++ (evs.map (fun a => payload a ++ [10])).flatten } := by
  refine ⟨fun a m w hr hm hw => callback_receive lib s a m w hr hm hw, ?_⟩
  induction evs generalizing s with
  | nil => simp [lws_service]
  | cons a evs ih =>
    obtain ⟨hr, hz, rest, hm⟩ := h a (by simp)
    have hc := callback_receive lib s a _ _ hr hm (cstrAt_append (payload a) rest hz)
    have ih2 := ih { s with out := s.out ++ (payload a ++ [10]) }
      (fun b hb => h b (by simp [hb]))
    simp only [List.map_cons, lws_service, dispatch, hc, ih2]
    simp

theorem receive_prints_line_witness :
    (∀ a ∈ [sampleReceive [104, 105, 0] 2, sampleReceive [111, 107, 0, 7] 2],
      a.reason = lws_callback_reasons.LWS_CALLBACK_CLIENT_RECEIVE ∧
      (∀ b ∈ payload a, b ≠ 0) ∧ ∃ rest, a.inp = some (payload a ++ 0 :: rest)) ∧
    lws_service sampleLib
        ([sampleReceive [104, 105, 0] 2, sampleReceive [111, 107, 0, 7] 2].map Dispatch.callback)
        State.init
      = Res.ok () { State.init with out := [104, 105, 10, 111, 107, 10] } :=
  have hyp : ∀ a ∈ [sampleReceive [104, 105, 0] 2, sampleReceive [111, 107, 0, 7] 2],
      a.reason = lws_callback_reasons.LWS_CALLBACK_CLIENT_RECEIVE ∧
      (∀ b ∈ payload a, b ≠ 0) ∧ ∃ rest, a.inp = some (payload a ++ 0 :: rest) := by
    intro a ha
    simp at ha
    rcases ha with rfl | rfl
    · exact ⟨rfl, by decide, [], by decide⟩
    · exact ⟨rfl, by decide, [7], by decide⟩
  ⟨hyp, (receive_prints_line sampleLib State.init _ hyp).2⟩

theorem after_schedule_fields (f : String) (v : Bool) (s : State) (q : SchedResult) :
    (after_schedule f v s q).sched_calls
      = s.sched_calls ++ [{ via_wsi := v, sul := s.sul, ctry := s.retryCount, ret := q.ret,
                            armed := q.sul }] ∧
    (after_schedule f v s q).sul = q.sul ∧
    (after_schedule f v s q).retryCount = q.ctry % 65536 ∧
    (q.ret ≠ 0 → (after_schedule f v s q).interrupted = true) ∧
    (q.ret = 0 → (after_schedule f v s q).interrupted = s.interrupted) ∧
    (after_schedule f v s q).out = s.out ∧
    (after_schedule f v s q).allocs = s.allocs ∧
    (after_schedule f v s q).lwsContext = s.lwsContext := by
  unfold after_schedule
  by_cases h : q.ret = 0
  · simp [h]
  · simp [h]

/-- C3: for every state, the handler run for a connection error or for a close
calls the retry scheduler once, with the timer slot and the attempt counter of
the program, and returns 0; what the call wrote is stored back, the
interrupted flag is set when the call reports exhaustion and keeps its value
when it does not.  `connect_client` does the same when the connect primitive
does not start an attempt. -/
theorem retry_path_schedules_once (lib : Lib) (s : State) (a : CbArgs)
    (hr : a.reason = lws_callback_reasons.LWS_CALLBACK_CLIENT_CONNECTION_ERROR ∨
          a.reason = lws_callback_reasons.LWS_CALLBACK_CLIENT_CLOSED) :
    (∃ s1, callback_minimal lib s a = Res.ok 0 s1 ∧
      s1.sched_calls = s.sched_calls ++
        [{ via_wsi := true, sul := s.sul, ctry := s.retryCount,
           ret := (lib.lws_retry_sul_schedule_retry_wsi a.wsi s.sul s.retryCount).ret,
           armed := (lib.lws_retry_sul_schedule_retry_wsi a.wsi s.sul s.retryCount).sul }] ∧
      s1.sul = (lib.lws_retry_sul_schedule_retry_wsi a.wsi s.sul s.retryCount).sul ∧
      s1.retryCount = (lib.lws_retry_sul_schedule_retry_wsi a.wsi s.sul s.retryCount).ctry % 65536 ∧
      ((lib.lws_retry_sul_schedule_retry_wsi a.wsi s.sul s.retryCount).ret ≠ 0 →
        s1.interrupted = true) ∧
      ((lib.lws_retry_sul_schedule_retry_wsi a.wsi s.sul s.retryCount).ret = 0 →
        s1.interrupted = s.interrupted)) ∧
    ∀ rw : Rewrite, (parsed lib s).ret = 0 →
      repairPath (url_buf lib s) (parsed lib s).path = some rw →
      lib.lws_client_connect_via_info
        (connect_info { s with allocs := s.allocs + 1 } (parsed lib s) rw.mem) s.connects.length
        = false →
      ∃ s1, connect_client lib s = Res.ok () s1 ∧
        s1.sched_calls = s.sched_calls ++
          [{ via_wsi := false, sul := s.sul, ctry := s.retryCount,
             ret := (lib.lws_retry_sul_schedule retryConfig s.sul s.retryCount).ret,
             armed := (lib.lws_retry_sul_schedule retryConfig s.sul s.retryCount).sul }] ∧
        s1.sul = (lib.lws_retry_sul_schedule retryConfig s.sul s.retryCount).sul ∧
        s1.retryCount = (lib.lws_retry_sul_schedule retryConfig s.sul s.retryCount).ctry % 65536 ∧
        ((lib.lws_retry_sul_schedule retryConfig s.sul s.retryCount).ret ≠ 0 →
          s1.interrupted = true) ∧
        ((lib.lws_retry_sul_schedule retryConfig s.sul s.retryCount).ret = 0 →
          s1.interrupted = s.interrupted) := by
  constructor
  · obtain ⟨l, hl⟩ := callback_retry lib s a hr
    obtain ⟨h1, h2, h3, h4, h5, _⟩ := after_schedule_fields "callback_minimal" true
      { s with err := s.err ++ [l] } (lib.lws_retry_sul_schedule_retry_wsi a.wsi s.sul s.retryCount)
    exact ⟨_, hl, h1, h2, h3, h4, h5⟩
  · intro rw hret hrw hconn
    rw [connect_client_of_repair lib s rw hret hrw, hconn]
    obtain ⟨h1, h2, h3, h4, h5, _⟩ := after_schedule_fields "connect_client" false
      { s with allocs := s.allocs + 1,
               connects := s.connects ++
                 [connect_info { s with allocs := s.allocs + 1 } (parsed lib s) rw.mem] }
      (lib.lws_retry_sul_schedule retryConfig s.sul s.retryCount)
    exact ⟨_, by simp, h1, h2, h3, h4, h5⟩

theorem retry_path_schedules_once_witness :
    ((sampleEvent lws_callback_reasons.LWS_CALLBACK_CLIENT_CLOSED).reason
        = lws_callback_reasons.LWS_CALLBACK_CLIENT_CONNECTION_ERROR ∨
      (sampleEvent lws_callback_reasons.LWS_CALLBACK_CLIENT_CLOSED).reason
        = lws_callback_reasons.LWS_CALLBACK_CLIENT_CLOSED) ∧
    (∃ s1, callback_minimal sampleLib sampleState
        (sampleEvent lws_callback_reasons.LWS_CALLBACK_CLIENT_CLOSED) = Res.ok 0 s1 ∧
      s1.sched_calls = [{ via_wsi := true, sul := none, ctry := 0, ret := 0,
                          armed := some 1000000 }] ∧
      s1.sul = some 1000000 ∧ s1.retryCount = 1 ∧ s1.interrupted = false) ∧
    ∃ s1, connect_client sampleLibNoConnect sampleState = Res.ok () s1 ∧
      s1.sched_calls = [{ via_wsi := false, sul := none, ctry := 0, ret := 0,
                          armed := some 1000000 }] ∧
      s1.sul = some 1000000 ∧ s1.retryCount = 1 ∧ s1.interrupted = false := by
  have h := retry_path_schedules_once sampleLib sampleState
    (sampleEvent lws_callback_reasons.LWS_CALLBACK_CLIENT_CLOSED) (Or.inr rfl)
  have h2 := retry_path_schedules_once sampleLibNoConnect sampleState
    (sampleEvent lws_callback_reasons.LWS_CALLBACK_CLIENT_CLOSED) (Or.inr rfl)
  refine ⟨Or.inr rfl, ?_, ?_⟩
  · obtain ⟨s1, h1, h2, h3, h4, _, h6⟩ := h.1
    exact ⟨s1, h1, h2, h3, h4, h6 (by decide)⟩
  · obtain ⟨hret, _, rw, hrw, _⟩ :=
      ws_host_stream_repair sampleLibNoConnect rfl sampleState rfl
    obtain ⟨s1, g1, g2, g3, g4, _, g6⟩ := h2.2 rw hret hrw rfl
    exact ⟨s1, g1, g2, g3, g4, g6 (by decide)⟩

/-- What one dispatched item can do to the retry state: either it leaves the
counter, the call record and the flag as they were (the flag may get set by the
signal handler), or it made one scheduler call on the counter as it was. -/
theorem dispatch_cases (lib : Lib) (s s1 : State) (d : Dispatch)
    (h : dispatch lib s d = Res.ok () s1) :
    (s1.retryCount = s.retryCount ∧ s1.sched_calls = s.sched_calls ∧
      (s.interrupted = true → s1.interrupted = true)) ∨
    ∃ (f : String) (v : Bool) (s0 : State) (q : SchedResult),
      s1 = after_schedule f v s0 q ∧ s0.retryCount = s.retryCount ∧
      s0.sched_calls = s.sched_calls ∧ s0.interrupted = s.interrupted ∧
      ((∃ wsi, q = lib.lws_retry_sul_schedule_retry_wsi wsi s0.sul s.retryCount) ∨
        q = lib.lws_retry_sul_schedule retryConfig s0.sul s.retryCount) := by
  cases d with
  | sigint =>
    simp [dispatch, sigint_handler] at h
    subst h
    exact Or.inl ⟨rfl, rfl, fun _ => rfl⟩
  | timer =>
    simp only [dispatch] at h
    split at h
    · simp at h
      subst h
      exact Or.inl ⟨rfl, rfl, fun x => x⟩
    · rename_i d0 hd0
      unfold connect_client at h
      simp only [] at h
      split at h
      · simp at h
      · split at h
        · simp at h
        · split at h
          · simp at h
            subst h
            exact Or.inl ⟨rfl, rfl, fun x => x⟩
          · simp at h
            exact Or.inr ⟨_, _, _, _, h.symm, rfl, rfl, rfl, Or.inr rfl⟩
  | callback a =>
    simp only [dispatch] at h
    split at h
    · rename_i v s2 hcb
      simp at h
      subst h
      unfold callback_minimal at hcb
      split at hcb
      · simp [do_retry] at hcb
        exact Or.inr ⟨_, _, _, _, hcb.2.symm, rfl, rfl, rfl, Or.inl ⟨_, rfl⟩⟩
      · split at hcb
        · simp at hcb
        · simp at hcb
          rw [← hcb.2]
          exact Or.inl ⟨rfl, rfl, fun x => x⟩
      · simp [do_retry] at hcb
        exact Or.inr ⟨_, _, _, _, hcb.2.symm, rfl, rfl, rfl, Or.inl ⟨_, rfl⟩⟩
      · simp at hcb
        rw [← hcb.2]
        exact Or.inl ⟨rfl, rfl, fun x => x⟩
    · simp at h
    · simp at h

theorem after_schedule_interrupted (f : String) (v : Bool) (s : State) (q : SchedResult)
    (h : s.interrupted = true) : (after_schedule f v s q).interrupted = true := by
  obtain ⟨_, _, _, h4, h5, _⟩ := after_schedule_fields f v s q
  by_cases hq : q.ret = 0
  · rw [h5 hq, h]
  · exact h4 hq

theorem dispatch_interrupted (lib : Lib) (s s1 : State) (d : Dispatch)
    (h : dispatch lib s d = Res.ok () s1) (hi : s.interrupted = true) :
    s1.interrupted = true := by
  rcases dispatch_cases lib s s1 d h with ⟨_, _, h3⟩ | ⟨f, v, s0, q, hs, _, _, h0, _⟩
  · exact h3 hi
  · rw [hs]
    exact after_schedule_interrupted f v s0 q (by rw [h0, hi])

theorem lws_service_interrupted (lib : Lib) (ds : List Dispatch) (s s1 : State)
    (h : lws_service lib ds s = Res.ok () s1) (hi : s.interrupted = true) :
    s1.interrupted = true := by
  induction ds generalizing s with
  | nil =>
    simp [lws_service] at h
    subst h
    exact hi
  | cons d ds ih =>
    simp only [lws_service] at h
    split at h
    · rename_i v s2 hd
      exact ih s2 h (dispatch_interrupted lib s s2 d hd hi)
    · simp at h
    · simp at h

theorem lws_service_counter (lib : Lib) (ds : List Dispatch) (s s1 : State)
    (h : lws_service lib ds s = Res.ok () s1) :
    s.sched_calls.length ≤ s1.sched_calls.length ∧
    (s1.sched_calls.length = s.sched_calls.length → s1.retryCount = s.retryCount) ∧
    ((∀ (sul : Option Nat) (c : Nat), c < 65536 →
        (∀ wsi, c ≤ (lib.lws_retry_sul_schedule_retry_wsi wsi sul c).ctry ∧
          (lib.lws_retry_sul_schedule_retry_wsi wsi sul c).ctry < 65536) ∧
        c ≤ (lib.lws_retry_sul_schedule retryConfig sul c).ctry ∧
        (lib.lws_retry_sul_schedule retryConfig sul c).ctry < 65536) →
      s.retryCount < 65536 → s.retryCount ≤ s1.retryCount ∧ s1.retryCount < 65536) := by
  induction ds generalizing s with
  | nil =>
    simp [lws_service] at h
    subst h
    exact ⟨Nat.le_refl _, fun _ => rfl, fun _ hs => ⟨Nat.le_refl _, hs⟩⟩
  | cons d ds ih =>
    simp only [lws_service] at h
    split at h
    · rename_i v s2 hd
      obtain ⟨i1, i2, i3⟩ := ih s2 h
      rcases dispatch_cases lib s s2 d hd with ⟨c1, c2, _⟩ | ⟨f, v, s0, q, hs, c1, c2, _, hq⟩
      · rw [c2] at i1
        rw [c1, c2] at i2
        rw [c1] at i3
        exact ⟨i1, i2, i3⟩
      · obtain ⟨a1, _, a3, _⟩ := after_schedule_fields f v s0 q
        rw [← hs] at a1 a3
        have hl : s2.sched_calls.length = s.sched_calls.length + 1 := by
          rw [a1, c2]; simp
        refine ⟨by omega, fun he => by omega, fun hmono hlt => ?_⟩
        have hq2 : s.retryCount ≤ q.ctry ∧ q.ctry < 65536 := by
          obtain ⟨m1, m2⟩ := hmono s0.sul s.retryCount hlt
          rcases hq with ⟨wsi, rfl⟩ | rfl
          · exact m1 wsi
          · exact m2
        have h2 : s.retryCount ≤ s2.retryCount ∧ s2.retryCount < 65536 := by
          rw [a3, Nat.mod_eq_of_lt hq2.2]
          exact hq2
        obtain ⟨j1, j2⟩ := i3 hmono h2.2
        exact ⟨by omega, j2⟩
    · simp at h
    · simp at h

theorem armRetry_ctry (rnd : Int) (bo : lws_retry_bo_t) (sul : Option Nat) (c : Nat)
    (hc : c < 65536) :
    c ≤ (armRetry rnd bo sul c).ctry ∧ (armRetry rnd bo sul c).ctry < 65536 := by
  unfold armRetry
  split
  · exact ⟨Nat.le_refl _, hc⟩
  · simp only []
    split <;> omega

/-- C9: a callback for any reason other than connection error and close (the
established notification and a received message among them; for a received
message `in` must lead to a terminated string) returns what the default handler
returns and leaves the attempt counter, the timer slot and the interrupted flag
as they were.  Over any run of dispatched timer expiries, callbacks and signals
the counter changes only in a retry scheduler call: it is unchanged when no
such call was made, and it never decreases when the scheduler never hands back
a smaller count. -/
theorem other_events_keep_retry_state (lib : Lib) (s : State) (a : CbArgs)
    (h1 : a.reason ≠ lws_callback_reasons.LWS_CALLBACK_CLIENT_CONNECTION_ERROR)
    (h2 : a.reason ≠ lws_callback_reasons.LWS_CALLBACK_CLIENT_CLOSED)
    (h3 : a.reason = lws_callback_reasons.LWS_CALLBACK_CLIENT_RECEIVE →
      ∃ m w, a.inp = some m ∧ cstrAt m = some w) :
    (∃ s1, callback_minimal lib s a = Res.ok (lib.lws_callback_http_dummy a) s1 ∧
      s1.retryCount = s.retryCount ∧ s1.sul = s.sul ∧ s1.interrupted = s.interrupted ∧
      s1.sched_calls = s.sched_calls) ∧
    ∀ (ds : List Dispatch) (s0 s2 : State), lws_service lib ds s0 = Res.ok () s2 →
      (s2.sched_calls.length = s0.sched_calls.length → s2.retryCount = s0.retryCount) ∧
      ((∀ (sul : Option Nat) (c : Nat), c < 65536 →
          (∀ wsi, c ≤ (lib.lws_retry_sul_schedule_retry_wsi wsi sul c).ctry ∧
            (lib.lws_retry_sul_schedule_retry_wsi wsi sul c).ctry < 65536) ∧
          c ≤ (lib.lws_retry_sul_schedule retryConfig sul c).ctry ∧
          (lib.lws_retry_sul_schedule retryConfig sul c).ctry < 65536) →
        s0.retryCount < 65536 → s0.retryCount ≤ s2.retryCount) := by
  constructor
  · by_cases hr : a.reason = lws_callback_reasons.LWS_CALLBACK_CLIENT_RECEIVE
    · obtain ⟨m, w, hm, hw⟩ := h3 hr
      exact ⟨_, callback_receive lib s a m w hr hm hw, rfl, rfl, rfl, rfl⟩
    · exact ⟨_, callback_default lib s a h1 h2 hr, rfl, rfl, rfl, rfl⟩
  · intro ds s0 s2 h
    obtain ⟨_, c2, c3⟩ := lws_service_counter lib ds s0 s2 h
    exact ⟨c2, fun hm hlt => (c3 hm hlt).1⟩

theorem other_events_keep_retry_state_witness :
    (sampleEvent lws_callback_reasons.LWS_CALLBACK_CLIENT_ESTABLISHED).reason
      ≠ lws_callback_reasons.LWS_CALLBACK_CLIENT_CONNECTION_ERROR ∧
    (sampleEvent lws_callback_reasons.LWS_CALLBACK_CLIENT_ESTABLISHED).reason
      ≠ lws_callback_reasons.LWS_CALLBACK_CLIENT_CLOSED ∧
    (∃ s1, callback_minimal sampleLib { sampleState with retryCount := 3, sul := some 7 }
        (sampleEvent lws_callback_reasons.LWS_CALLBACK_CLIENT_ESTABLISHED) = Res.ok 0 s1 ∧
      s1.retryCount = 3 ∧ s1.sul = some 7 ∧ s1.interrupted = false) ∧
    ∀ (ds : List Dispatch) (s2 : State),
      lws_service sampleLib ds { sampleState with retryCount := 3, sul := some 7 } = Res.ok () s2 →
      3 ≤ s2.retryCount := by
  have h := other_events_keep_retry_state sampleLib
    { sampleState with retryCount := 3, sul := some 7 }
    (sampleEvent lws_callback_reasons.LWS_CALLBACK_CLIENT_ESTABLISHED)
    (by decide) (by decide) (by intro h; exact absurd h (by decide))
  refine ⟨by decide, by decide, ?_, ?_⟩
  · obtain ⟨s1, h1, h2, h3, h4, _⟩ := h.1
    exact ⟨s1, h1, h2, h3, h4⟩
  · intro ds s2 hrun
    refine (h.2 ds _ s2 hrun).2 ?_ (by decide)
    intro sul c hc
    exact ⟨fun _ => armRetry_ctry _ _ _ _ hc, armRetry_ctry _ _ _ _ hc⟩

theorem serviceLoop_stop (lib : Lib) (ticks : List Tick) (n : Int) (s : State)
    (h : n < 0 ∨ s.interrupted = true) :
    serviceLoop lib ticks n s = Proc.exited 0 { s with lwsContext := false } := by
  unfold serviceLoop
  rcases h with h | h
  · rw [if_neg (by omega)]
  · rw [if_neg (by simp [h])]

theorem serviceLoop_step (lib : Lib) (t : Tick) (ts : List Tick) (n : Int) (s : State)
    (hn : 0 ≤ n) (hi : s.interrupted = false) :
    serviceLoop lib (t :: ts) n s =
      match lws_service lib t.events s with
      | Res.ok _ s1 => serviceLoop lib ts t.ret s1
      | Res.exit c s1 => Proc.exited c s1
      | Res.undefined => Proc.undefined := by
  rw [serviceLoop]
  rw [if_pos ⟨hn, hi⟩]

theorem lws_service_exhausted (lib : Lib) (ds : List Dispatch) (s s1 : State)
    (h : lws_service lib ds s = Res.ok () s1) :
    ∃ calls, s1.sched_calls = s.sched_calls ++ calls ∧
      ((∃ c ∈ calls, c.ret ≠ 0) → s1.interrupted = true) := by
  induction ds generalizing s with
  | nil =>
    simp [lws_service] at h
    subst h
    exact ⟨[], by simp, by simp⟩
  | cons d ds ih =>
    simp only [lws_service] at h
    split at h
    · rename_i v s2 hd
      obtain ⟨calls2, e2, i2⟩ := ih s2 h
      rcases dispatch_cases lib s s2 d hd with ⟨_, c2, _⟩ | ⟨f, v, s0, q, hs, _, c2, _, _⟩
      · exact ⟨calls2, by rw [e2, c2], i2⟩
      · obtain ⟨a1, _, _, a4, _⟩ := after_schedule_fields f v s0 q
        rw [← hs] at a1 a4
        refine ⟨{ via_wsi := v, sul := s0.sul, ctry := s0.retryCount, ret := q.ret,
                  armed := q.sul } :: calls2, by rw [e2, a1, c2]; simp, ?_⟩
        rintro ⟨c, hc, hne⟩
        simp at hc
        rcases hc with rfl | hc
        · exact lws_service_interrupted lib ds s2 s1 h (a4 hne)
        · exact i2 ⟨c, hc, hne⟩
    · simp at h
    · simp at h

theorem main_loop (lib : Lib) (argv : List (List Nat)) (e : Bool) (ticks : List Tick)
    (hargc : argv.length = 2) (hctx : lib.lws_create_context = true) :
    main lib argv e ticks = serviceLoop lib ticks 0 (startState argv e) := by
  simp [main, hargc, hctx, startState]

/-- C4 amended: whenever a retry scheduler call made during a call of
`lws_service` reports exhaustion (from the retry path of `callback_minimal` or
from the failure path of `connect_client`), the interrupted flag is set when
that call of `lws_service` returns, the loop of `main` stops at its next test,
and the process ends with exit status 0. -/
theorem exhaustion_stops_loop (lib : Lib) (t : Tick) (ts : List Tick) (n : Int) (s s1 : State)
    (hn : 0 ≤ n) (hi : s.interrupted = false)
    (hrun : lws_service lib t.events s = Res.ok () s1)
    (hex : ∃ c ∈ s1.sched_calls.drop s.sched_calls.length, c.ret ≠ 0) :
    s1.interrupted = true ∧
    serviceLoop lib (t :: ts) n s = Proc.exited 0 { s1 with lwsContext := false } ∧
    (serviceLoop lib (t :: ts) n s).code = some 0 := by
  obtain ⟨calls, hc, himp⟩ := lws_service_exhausted lib t.events s s1 hrun
  have hint : s1.interrupted = true := by
    apply himp
    rw [hc] at hex
    simpa using hex
  have hloop : serviceLoop lib (t :: ts) n s = Proc.exited 0 { s1 with lwsContext := false } := by
    rw [serviceLoop_step lib t ts n s hn hi, hrun]
    exact serviceLoop_stop lib ts t.ret s1 (Or.inr hint)
  exact ⟨hint, hloop, by rw [hloop, Proc.code]⟩
theorem timer_step (lib : Lib) (hp : lib.lws_parse_uri = parse_uri)
    (hconn : ∀ i k, lib.lws_client_connect_via_info i k = true) (s : State) (d : Nat)
    (hs : s.argUrl = bytes "ws://host/stream") (hsul : s.sul = some d) :
    ∃ s1, lws_service lib [Dispatch.timer] s = Res.ok () s1 ∧
      s1.argUrl = s.argUrl ∧ s1.retryCount = s.retryCount ∧ s1.interrupted = s.interrupted ∧
      s1.sul = none ∧ s1.sched_calls = s.sched_calls := by
  obtain ⟨hret, _, rw, hrw, _⟩ := ws_host_stream_repair lib hp { s with sul := none } hs
  have hcc := connect_client_of_repair _ _ rw hret hrw
  rw [hconn, if_pos rfl] at hcc
  simp only [lws_service, dispatch, hsul, hcc]
  exact ⟨_, rfl, rfl, rfl, rfl, rfl, rfl⟩

theorem main_start (rnd : Nat → Int) (ok : Nat → Bool) (junk : Nat → Nat) (ticks : List Tick) :
    ∃ s, main (specLib rnd ok junk) sampleArgv false ticks
        = serviceLoop (specLib rnd ok junk) ticks 0 s ∧ retrying 0 s := by
  refine ⟨_, main_loop _ _ _ _ (by decide) rfl, ?_⟩
  refine ⟨?_, rfl, rfl, rfl, rfl⟩
  decide


/-- C4, as stated, fails: with a transport whose retry scheduler reports
exhaustion, the first connection error makes the handler set the interrupted
flag (lines 146-148) and the loop stops, but the exit status is 0, the value
line 199 returns, and not the failure code 1. -/
theorem exhaustion_exits_zero :
    ∃ s, main givingUpLib sampleArgv false (failures 1) = Proc.exited 0 s ∧
      s.interrupted = true ∧
      (s.sched_calls.map (fun c => c.ret)).getLast? = some 1 ∧
      (main givingUpLib sampleArgv false (failures 1)).code ≠ some 1 := by
  have hstart : (startState sampleArgv false).argUrl = bytes "ws://host/stream" := by decide
  obtain ⟨s1, e1, _, _, i1, t1, k1⟩ := timer_step givingUpLib rfl (fun _ _ => rfl)
    (startState sampleArgv false) 1 hstart rfl
  obtain ⟨l, hl⟩ := callback_retry givingUpLib s1
    (sampleEvent lws_callback_reasons.LWS_CALLBACK_CLIENT_CONNECTION_ERROR) (Or.inl rfl)
  obtain ⟨a1, _, _, a4, _⟩ := after_schedule_fields "callback_minimal" true
    { s1 with err := s1.err ++ [l] }
    (givingUpLib.lws_retry_sul_schedule_retry_wsi
      (sampleEvent lws_callback_reasons.LWS_CALLBACK_CLIENT_CONNECTION_ERROR).wsi s1.sul
      s1.retryCount)
  have hint := a4 (by simp [givingUpLib])
  have hrun : main givingUpLib sampleArgv false (failures 1)
      = Proc.exited 0
          { after_schedule "callback_minimal" true { s1 with err := s1.err ++ [l] }
              (givingUpLib.lws_retry_sul_schedule_retry_wsi
                (sampleEvent lws_callback_reasons.LWS_CALLBACK_CLIENT_CONNECTION_ERROR).wsi s1.sul
                s1.retryCount)
            with lwsContext := false } := by
    rw [main_loop givingUpLib sampleArgv false _ (by decide) rfl]
    simp only [failures, failedAttempt, List.replicate, List.flatten, List.cons_append,
      List.nil_append, List.append_nil]
    rw [serviceLoop_step _ _ _ _ _ (Int.le_refl 0) rfl]
    simp only [tick, e1]
    rw [serviceLoop_step _ _ _ _ _ (Int.le_refl 0) (by rw [i1]; rfl)]
    simp only [lws_service, dispatch, hl]
    exact serviceLoop_stop _ _ _ _ (Or.inr hint)
  refine ⟨_, hrun, hint, ?_, ?_⟩
  · show (List.map (fun c => c.ret) (after_schedule _ _ _ _).sched_calls).getLast? = some 1
    rw [a1]
    simp [givingUpLib]
  · rw [hrun]
    simp [Proc.code]

theorem exhaustion_stops_loop_witness :
    (0 : Int) ≤ 0 ∧
    ∃ s s1, s.interrupted = false ∧
      lws_service givingUpLib
        (tick [Dispatch.callback
          (sampleEvent lws_callback_reasons.LWS_CALLBACK_CLIENT_CLOSED)]).events s = Res.ok () s1 ∧
      (∃ c ∈ s1.sched_calls.drop s.sched_calls.length, c.ret ≠ 0) ∧
      s1.interrupted = true ∧
      (serviceLoop givingUpLib
        [tick [Dispatch.callback (sampleEvent lws_callback_reasons.LWS_CALLBACK_CLIENT_CLOSED)]]
        0 s).code = some 0 := by
  have hrun : lws_service givingUpLib
      (tick [Dispatch.callback
        (sampleEvent lws_callback_reasons.LWS_CALLBACK_CLIENT_CLOSED)]).events
      sampleState
      = Res.ok () ({ sampleState with
          interrupted := true,
          err := [LogLine.closed, LogLine.attempts_exhausted "callback_minimal"],
          sched_calls := [{ via_wsi := true, sul := none, ctry := 0, ret := 1, armed := none }] }) := by
    decide
  have hex : ∃ c ∈ ({ sampleState with
          interrupted := true,
          err := [LogLine.closed, LogLine.attempts_exhausted "callback_minimal"],
          sched_calls := [{ via_wsi := true, sul := none, ctry := 0, ret := 1, armed := none }] }
            : State).sched_calls.drop sampleState.sched_calls.length, c.ret ≠ 0 :=
    ⟨{ via_wsi := true, sul := none, ctry := 0, ret := 1, armed := none }, by decide, by decide⟩
  have h := exhaustion_stops_loop givingUpLib
    (tick [Dispatch.callback (sampleEvent lws_callback_reasons.LWS_CALLBACK_CLIENT_CLOSED)]) []
    0 sampleState _ (Int.le_refl 0) rfl hrun hex
  exact ⟨Int.le_refl 0, _, _, rfl, hrun, hex, h.1, h.2.2⟩

theorem lws_service_sigint (lib : Lib) (ds : List Dispatch) (s s1 : State)
    (h : lws_service lib ds s = Res.ok () s1) (hsig : Dispatch.sigint ∈ ds) :
    s1.interrupted = true := by
  induction ds generalizing s with
  | nil => simp at hsig
  | cons d ds ih =>
    simp only [lws_service] at h
    split at h
    · rename_i v s2 hd
      simp at hsig
      rcases hsig with rfl | hsig
      · simp [dispatch, sigint_handler] at hd
        exact lws_service_interrupted lib ds s2 s1 h (by rw [← hd])
      · exact ih s2 h hsig
    · simp at h
    · simp at h

theorem timer_parse_failure (lib : Lib) (s : State) (d : Nat) (ds : List Dispatch)
    (hsul : s.sul = some d) (hret : (lib.lws_parse_uri (c_str s.argUrl)).ret ≠ 0) :
    ∃ s1, lws_service lib (Dispatch.timer :: ds) s = Res.exit 1 s1 := by
  have hp : (parsed lib { s with sul := none }).ret ≠ 0 := hret
  have hc : connect_client lib { s with sul := none }
      = Res.exit 1 { s with sul := none, allocs := s.allocs + 1,
                            err := s.err ++ [LogLine.cannot_parse_uri] } := by
    simp [connect_client, hp]
  simp only [lws_service, dispatch, hsul, hc]
  exact ⟨_, rfl⟩

/-- C5, as stated, fails: when the first call of `lws_service` returns a
negative value the loop ends and `main` returns 0, not 1. -/
theorem fatal_service_exits_zero :
    (main sampleLib sampleArgv false [{ events := [Dispatch.timer], ret := -1 }]).code = some 0 ∧
    (main sampleLib sampleArgv false [{ events := [Dispatch.timer], ret := -1 }]).code ≠ some 1 ∧
    ((-1 : Int) < 0) := by
  obtain ⟨s0, e0, r0⟩ := main_start (fun _ => 0) (fun _ => true) (fun _ => 99)
    [{ events := [Dispatch.timer], ret := -1 }]
  obtain ⟨hurl, _, hi, hsul, _⟩ := r0
  obtain ⟨s1, e1, _⟩ := timer_step (specLib (fun _ => 0) (fun _ => true) (fun _ => 99)) rfl
    (fun _ _ => rfl) s0 _ hurl hsul
  have hrun : main sampleLib sampleArgv false [{ events := [Dispatch.timer], ret := -1 }]
      = Proc.exited 0 { s1 with lwsContext := false } := by
    unfold sampleLib
    rw [e0, serviceLoop_step _ _ _ _ _ (Int.le_refl 0) hi]
    simp only [e1]
    exact serviceLoop_stop _ _ _ _ (Or.inl (by decide))
  rw [hrun]
  simp [Proc.code]

/-- C5 amended: `main` ends with status 1 when the argument count is not 2,
when the context cannot be created, and when `connect_client` cannot parse the
URL (it calls `exit(1)`).  Once the loop of line 193 has been entered, every
other end of the run has status 0: the loop ending because the interrupted flag
was seen after a signal, and the loop ending because `lws_service` returned a
negative value, alike. -/
theorem main_exit_status (lib : Lib) (argv : List (List Nat)) (e : Bool) (t : Tick)
    (ts : List Tick) :
    (argv.length ≠ 2 → (main lib argv e (t :: ts)).code = some 1) ∧
    (argv.length = 2 → lib.lws_create_context = false →
      (main lib argv e (t :: ts)).code = some 1) ∧
    (argv.length = 2 → lib.lws_create_context = true →
      (lib.lws_parse_uri (c_str (argv.getD 1 []))).ret ≠ 0 →
      (∃ ds, t.events = Dispatch.timer :: ds) →
      (main lib argv false (t :: ts)).code = some 1) ∧
    (argv.length = 2 → lib.lws_create_context = true →
      ∀ s1, lws_service lib t.events (startState argv false) = Res.ok () s1 → t.ret < 0 →
      main lib argv false (t :: ts) = Proc.exited 0 { s1 with lwsContext := false }) ∧
    (argv.length = 2 → lib.lws_create_context = true →
      ∀ s1, lws_service lib t.events (startState argv false) = Res.ok () s1 →
      Dispatch.sigint ∈ t.events →
      main lib argv false (t :: ts) = Proc.exited 0 { s1 with lwsContext := false }) ∧
    (argv.length = 2 → lib.lws_create_context = true →
      (main lib argv true (t :: ts)).code = some 0) ∧
    (∀ (n : Int) (s : State), n < 0 ∨ s.interrupted = true →
      serviceLoop lib (t :: ts) n s = Proc.exited 0 { s with lwsContext := false }) ∧
    (∀ (n : Int) (s : State), 0 ≤ n → s.interrupted = false → s.sul ≠ none →
      (lib.lws_parse_uri (c_str s.argUrl)).ret ≠ 0 →
      (∃ ds, t.events = Dispatch.timer :: ds) →
      (serviceLoop lib (t :: ts) n s).code = some 1) := by
  refine ⟨?_, ?_, ?_, ?_, ?_, ?_, ?_, ?_⟩
  · intro h
    simp [main, h, Proc.code]
  · intro h hc
    simp [main, h, hc, Proc.code]
  · rintro h hc hp ⟨ds, hds⟩
    rw [main_loop lib argv false _ h hc,
      serviceLoop_step _ _ _ _ _ (Int.le_refl 0) rfl, hds]
    obtain ⟨s1, hs1⟩ := timer_parse_failure lib (startState argv false) 1 ds rfl hp
    rw [hs1]
    rfl
  · intro h hc s1 hrun hneg
    rw [main_loop lib argv false _ h hc,
      serviceLoop_step _ _ _ _ _ (Int.le_refl 0) rfl, hrun]
    exact serviceLoop_stop _ _ _ _ (Or.inl hneg)
  · intro h hc s1 hrun hsig
    rw [main_loop lib argv false _ h hc,
      serviceLoop_step _ _ _ _ _ (Int.le_refl 0) rfl, hrun]
    exact serviceLoop_stop _ _ _ _ (Or.inr (lws_service_sigint lib _ _ _ hrun hsig))
  · intro h hc
    rw [main_loop lib argv true _ h hc, serviceLoop_stop _ _ _ _ (Or.inr rfl)]
    rfl
  · intro n s h
    exact serviceLoop_stop _ _ _ _ h
  · rintro n s hn hi hsul hp ⟨ds, hds⟩
    obtain ⟨d, hd⟩ : ∃ d, s.sul = some d := by
      cases hsl : s.sul with
      | none => exact absurd hsl hsul
      | some d => exact ⟨d, rfl⟩
    rw [serviceLoop_step _ _ _ _ _ hn hi, hds]
    obtain ⟨s1, hs1⟩ := timer_parse_failure lib s d ds hd hp
    rw [hs1]
    rfl

theorem main_exit_status_witness :
    ([bytes "wsc"] : List (List Nat)).length ≠ 2 ∧
    (main sampleLib [bytes "wsc"] false [tick [Dispatch.timer]]).code = some 1 ∧
    sampleArgv.length = 2 ∧ sampleLib.lws_create_context = true ∧
    (main sampleLib sampleArgv true [tick [Dispatch.timer]]).code = some 0 :=
  ⟨by decide,
   (main_exit_status sampleLib [bytes "wsc"] false (tick [Dispatch.timer]) []).1 (by decide),
   by decide, rfl,
   (main_exit_status sampleLib sampleArgv true (tick [Dispatch.timer]) []).2.2.2.2.2.1
     (by decide) rfl⟩

/-- C7: for every policy and every attempt count `k`, the give-up rule is false
for all `k` up to the conceal count and true for the first `k` above it (and
for every later one), unless the conceal count is at least the table length, in
which case the rule is false for every `k`: the scheduler then never reports
exhaustion and, past the end of the table, keeps arming the last delay.  The
configured policy has conceal count 5 and table length 5, so for it the rule is
false for every `k`.  The scheduler reports exhaustion exactly when the rule is
true of the current attempt count. -/
theorem give_up_rule (bo : lws_retry_bo_t) (k : Nat) :
    (k ≤ bo.conceal_count → shouldGiveUp bo k = false) ∧
    (bo.conceal_count < bo.retry_ms_table_count →
      shouldGiveUp bo (bo.conceal_count + 1) = true ∧
      (bo.conceal_count < k → shouldGiveUp bo k = true)) ∧
    (bo.conceal_count ≥ bo.retry_ms_table_count →
      shouldGiveUp bo k = false ∧
      ∀ (rnd : Int) (sul : Option Nat),
        (armRetry rnd bo sul k).ret = 0 ∧
        (bo.retry_ms_table_count - 1 ≤ k →
          (armRetry rnd bo sul k).sul
            = some (nextDelay bo (bo.retry_ms_table_count - 1) rnd * 1000))) ∧
    (retryConfig.conceal_count = 5 ∧ retryConfig.retry_ms_table.length = 5 ∧
      retryConfig.retry_ms_table_count = 5 ∧ shouldGiveUp retryConfig k = false) ∧
    (∀ (rnd : Int) (sul : Option Nat),
      ((armRetry rnd bo sul k).ret ≠ 0 ↔ shouldGiveUp bo k = true)) := by
  refine ⟨?_, ?_, ?_, ⟨rfl, rfl, rfl, by simp [shouldGiveUp, retryConfig]⟩, ?_⟩
  · intro h
    unfold shouldGiveUp
    split
    · rfl
    · simp; omega
  · intro h
    unfold shouldGiveUp
    rw [if_neg (by omega), if_neg (by omega)]
    exact ⟨by simp, fun hk => by simp; omega⟩
  · intro h
    have hg : shouldGiveUp bo k = false := by
      unfold shouldGiveUp
      rw [if_pos h]
    refine ⟨hg, fun rnd sul => ?_⟩
    unfold armRetry
    rw [hg]
    refine ⟨rfl, fun hk => ?_⟩
    simp only [nextDelay, Nat.min_eq_right hk, Nat.min_self]
    rfl
  · intro rnd sul
    unfold armRetry
    cases h : shouldGiveUp bo k <;> simp

theorem give_up_rule_witness :
    (2 ≤ ({ retryConfig with conceal_count := 2 } : lws_retry_bo_t).conceal_count) ∧
    shouldGiveUp { retryConfig with conceal_count := 2 } 2 = false ∧
    (({ retryConfig with conceal_count := 2 } : lws_retry_bo_t).conceal_count
      < ({ retryConfig with conceal_count := 2 } : lws_retry_bo_t).retry_ms_table_count) ∧
    shouldGiveUp { retryConfig with conceal_count := 2 } 3 = true ∧
    retryConfig.conceal_count ≥ retryConfig.retry_ms_table_count ∧
    shouldGiveUp retryConfig 6 = false :=
  ⟨by decide, (give_up_rule { retryConfig with conceal_count := 2 } 2).1 (by decide),
   by decide, ((give_up_rule { retryConfig with conceal_count := 2 } 2).2.1 (by decide)).1,
   by decide, ((give_up_rule retryConfig 6).2.2.1 (by decide)).1⟩

end Wsc
